import Mathlib

/-!
Verification development for the Mazenasium repository (Go).

Shallow embedding conventions:
* Go `int` is modelled as `Int`; loops are folds or fuel-based recursion
  (fuel exhaustion yields `none`, matching divergence: such a run returns
  no value, so claims about returned values are unaffected).
* Go slices/grids of tiles are modelled as total functions `Int → Int → Tile`
  (row-major, `tile y x` = `Grid[y][x]`); all mutation goes through the same
  bounds-guarded writes the source performs.  Tiles are modelled by value;
  the only observable pointer-aliasing effect in the source (a duplicated
  `*Tile` sharing its `X` field after a rotation) is not relied upon by any
  property below, which only inspect `id`/`Type` fields.
* `math/rand` randomness is modelled by a stream of naturals: `Intn n`
  consumes the next stream value reduced mod `n` (all call sites guarantee
  `n > 0`, where Go would otherwise panic).  The seeded source created in
  `Generate` and the package-global source are separate streams, mirroring
  the two distinct sources the Go code draws from.
* `float64` render-space coordinates are modelled as `ℚ`; no property below
  depends on rounding.
-/

namespace Mazenasium

/-- Model of a `math/rand` source: the stream of values it will produce and
the index of the next one. -/
structure Rand where
  stream : Nat → Nat
  idx : Nat

/-- Model of `(*rand.Rand).Intn n` / `rand.Intn n`: next stream value reduced
into `[0, n)`.  Callers in this development always have `n > 0` (Go panics
otherwise). -/
def randIntn (r : Rand) (n : Int) : Int × Rand :=
  (Int.ofNat (r.stream r.idx % n.toNat), { r with idx := r.idx + 1 })

/-- Position struct of the maze package. -/
structure Position where
  x : Int
  y : Int
deriving DecidableEq, Repr

/-- TileType from internal/game/maze/tile.go. -/
inductive TileType where
  | Floor
  | Wall
  | Goal
  | SpecialTrigger
  | Trap
deriving DecidableEq, Repr

/-- Tile from internal/game/maze/tile.go. -/
structure Tile where
  id : Int
  ty : TileType
  flavorImage : String
  x : Int
  y : Int
  highlighted : Bool
  visited : Bool
deriving DecidableEq, Repr

/-- NewTile from tile.go. -/
def NewTile (id : Int) (tileType : TileType) (x y : Int) : Tile :=
  { id := id, ty := tileType, x := x, y := y,
    flavorImage := "", highlighted := false, visited := false }

/-- IsWall method on Tile. -/
def Tile.IsWall (t : Tile) : Bool :=
  t.ty = TileType.Wall

/-- Maze State from part_010 (internal/game/maze/state.go): a width × height
grid of tiles plus the cached goal position. -/
structure State where
  width : Int
  height : Int
  goalX : Int
  goalY : Int
  tile : Int → Int → Tile

/-- NewState: a fresh grid of Wall tiles with ids `y*width + x`. -/
def NewState (width height : Int) : State :=
  { width := width, height := height, goalX := -1, goalY := -1,
    tile := fun y x => NewTile (y * width + x) TileType.Wall x y }

/-- Raw write `s.Grid[y][x] = t` (used by the source only at indices it has
already bounds-checked or that its loops keep in range). -/
def State.setCell (s : State) (y x : Int) (t : Tile) : State :=
  { s with tile := fun y2 x2 => if y2 = y ∧ x2 = x then t else s.tile y2 x2 }

/-- GetTile from state.go: bounds-checked lookup, `nil` becomes `none`. -/
def State.GetTile (s : State) (x y : Int) : Option Tile :=
  if x < 0 ∨ x ≥ s.width ∨ y < 0 ∨ y ≥ s.height then none
  else some (s.tile y x)

/-- SetTileType from state.go: bounds-checked type update; setting `Goal`
also updates the cached goal position. -/
def State.SetTileType (s : State) (x y : Int) (tileType : TileType) : State :=
  if x < 0 ∨ x ≥ s.width ∨ y < 0 ∨ y ≥ s.height then s
  else if tileType = TileType.Goal then
    { s.setCell y x { s.tile y x with ty := tileType } with goalX := x, goalY := y }
  else s.setCell y x { s.tile y x with ty := tileType }

/-- IsValidMove from state.go. -/
def State.IsValidMove (s : State) (x y : Int) : Bool :=
  match s.GetTile x y with
  | none => false
  | some t => !t.IsWall

/-- ClearHighlights from state.go: resets the flag on every in-bounds cell. -/
def State.ClearHighlights (s : State) : State :=
  { s with tile := fun y x =>
      if 0 ≤ y ∧ y < s.height ∧ 0 ≤ x ∧ x < s.width then
        { s.tile y x with highlighted := false }
      else s.tile y x }

/-- HighlightXRotation from state.go: clears all highlights, then (if the
row is in bounds) highlights every cell of row `playerY` except the player's
column and the two border columns. -/
def State.HighlightXRotation (s : State) (playerX playerY : Int) : State :=
  let s0 := s.ClearHighlights
  if playerY < 0 ∨ playerY ≥ s0.height then s0
  else
    { s0 with tile := fun y x =>
        if y = playerY ∧ x ≠ playerX ∧ 0 < x ∧ x < s0.width - 1 then
          { s0.tile y x with highlighted := true }
        else s0.tile y x }

/-- Wrapped destination column of source column `x` under a rotation, as
computed inside `PerformXRotate` and `CheckXRotateCollisions`:
`newX := x + direction`, wrapped into `[1, width-2]`. -/
def rotDest (width x direction : Int) : Int :=
  let newX := x + direction
  if newX ≤ 0 then width - 2
  else if newX ≥ width - 1 then 1
  else newX

/-- Raw write `grid[y][x] = v` on a function-backed grid. -/
def writeCell {A : Type} (g : Int → Int → A) (y x : Int) (v : A) : Int → Int → A :=
  fun y2 x2 => if y2 = y ∧ x2 = x then v else g y2 x2

/-- Rotation loop body shared verbatim by `State.PerformXRotate` (part_010),
`Maze.PerformXRotate` and `Maze.CheckXRotateCollisions` (part_008): process
source columns `x = 1, 2, …, m` in increasing order (the Go loop
`for x := 1; x < width-1; x++` instantiates `m = width-2`); skip the player's
column; write the snapshotted tile of each remaining source into its wrapped
destination.  `adjust` is whatever per-move tile fix-up the variant performs
(part_010 updates the moved tile's `X`; part_008 moves the tile unchanged). -/
def rotFoldN {A : Type} (w px py dir : Int) (adjust : A → Int → A)
    (temp : Int → A) (g : Int → Int → A) : Nat → Int → Int → A
  | 0 => g
  | m + 1 =>
    let prev := rotFoldN w px py dir adjust temp g m
    let x : Int := 1 + Int.ofNat m
    if x = px then prev
    else writeCell prev py (rotDest w x dir) (adjust (temp x) (rotDest w x dir))

/-- Full rotation loop over all interior source columns `1 … width-2`. -/
def rotFold {A : Type} (w px py dir : Int) (adjust : A → Int → A)
    (temp : Int → A) (g : Int → Int → A) : Int → Int → A :=
  rotFoldN w px py dir adjust temp g (w - 2).toNat

/-- PerformXRotate from part_010 state.go: if the row is in bounds, snapshot
the row, then for every interior source column except the player's, write the
snapshotted tile into its wrapped destination column (updating the tile's
`X`), and finally clear all highlights. -/
def State.PerformXRotate (s : State) (playerX playerY direction : Int) : State :=
  if playerY < 0 ∨ playerY ≥ s.height then s
  else
    let tempRow : Int → Tile := fun x => s.tile playerY x
    let rotated := rotFold s.width playerX playerY direction
        (fun t newX => { t with x := newX }) tempRow s.tile
    let s1 := { s with tile := rotated }
    s1.ClearHighlights

namespace player

/-- Player from internal/game/player/player.go.  Render-space coordinates
(`float64` in Go) are modelled as rationals. -/
structure Player where
  gridX : Int
  gridY : Int
  x : ℚ
  y : ℚ
  destX : ℚ
  destY : ℚ
  moving : Bool
  size : ℚ
deriving DecidableEq, Repr

/-- Player.New from player.go. -/
def New (gridX gridY : Int) (tileSize : ℚ) : Player :=
  { gridX := gridX, gridY := gridY,
    x := gridX * tileSize, y := gridY * tileSize,
    destX := gridX * tileSize, destY := gridY * tileSize,
    moving := false, size := 28 }

/-- SetDestination from player.go: unconditionally overwrites the grid
coordinates and render-space destination and sets `Moving`. -/
def Player.SetDestination (p : Player) (gridX gridY : Int) (tileSize : ℚ) : Player :=
  { p with gridX := gridX, gridY := gridY,
           destX := gridX * tileSize, destY := gridY * tileSize,
           moving := true }

end player

namespace action

/-- ActionType from action.go. -/
inductive ActionType where
  | XRotateLeft
  | XRotateRight
deriving DecidableEq, Repr

/-- Action catalog entry from action.go. -/
structure Action where
  ty : ActionType
  name : String
  description : String
  cooldown : Int
deriving DecidableEq, Repr

/-- Action manager from action.go.  The Go `Cooldowns` map always holds
exactly the catalog's two action types (inserted by `NewManager` and only
ever rewritten by `UseAction`), so it is modelled as a total function on
`ActionType`. -/
structure Manager where
  actions : List Action
  cooldowns : ActionType → Int
  selectedIndex : Int

/-- Default action catalog built by NewManager. -/
def defaultActions : List Action :=
  [ { ty := ActionType.XRotateLeft, name := "Rotate Row Left",
      description := "Rotate the current row to the left", cooldown := 120 },
    { ty := ActionType.XRotateRight, name := "Rotate Row Right",
      description := "Rotate the current row to the right", cooldown := 120 } ]

/-- NewManager from action.go: catalog plus all cooldowns at 0. -/
def NewManager : Manager :=
  { actions := defaultActions, cooldowns := fun _ => 0, selectedIndex := -1 }

/-- UpdateCooldowns: decrement every nonzero cooldown by one. -/
def Manager.UpdateCooldowns (m : Manager) : Manager :=
  { m with cooldowns := fun t =>
      if m.cooldowns t > 0 then m.cooldowns t - 1 else m.cooldowns t }

/-- IsActionAvailable: cooldown is zero. -/
def Manager.IsActionAvailable (m : Manager) (t : ActionType) : Bool :=
  m.cooldowns t = 0

/-- UseAction: reset the cooldown of `t` to the catalog's full duration
(first catalog entry with that type; no-op if the type is not listed). -/
def Manager.UseAction (m : Manager) (t : ActionType) : Manager :=
  match m.actions.find? (fun a => a.ty = t) with
  | some a => { m with cooldowns := fun t2 => if t2 = t then a.cooldown else m.cooldowns t2 }
  | none => m

/-- GetAvailableActions: catalog filtered by availability, in catalog order. -/
def Manager.GetAvailableActions (m : Manager) : List Action :=
  m.actions.filter (fun a => m.IsActionAvailable a.ty)

/-- GetActionByNumber: 1-based index into the available list. -/
def Manager.GetActionByNumber (m : Manager) (number : Int) : Option Action :=
  let availableActions := m.GetAvailableActions
  if number < 1 ∨ number > availableActions.length then none
  else availableActions.get? (number - 1).toNat

end action

/-- Catalog cooldown duration of an action type (from the NewManager
catalog); both rotation actions carry 120 ticks. -/
def action.catalogCooldown (t : action.ActionType) : Int :=
  ((action.defaultActions.find? (fun a => a.ty = t)).map (fun a => a.cooldown)).getD 0

namespace mazeEight

/-- MazeTile from part_008 (an earlier maze iteration with value-typed
tiles). -/
structure MazeTile where
  tileType : Mazenasium.TileType
  visited : Bool
  hasItem : Bool
  itemType : Int
  highlighted : Bool
deriving DecidableEq, Repr

/-- Maze from part_008. -/
structure Maze where
  width : Int
  height : Int
  centerX : Int
  centerY : Int
  goalX : Int
  goalY : Int
  grid : Int → Int → MazeTile

/-- CheckXRotateCollisions from part_008: read-only simulation — for every
interior source column except the player's, if the tile currently at the
source is a Wall and its wrapped destination (same row) is an entity
position, report a collision.  The `tempGrid` copy in the source is dead
code (never read) and the entity map is position-set membership. -/
def Maze.CheckXRotateCollisions (m : Maze) (playerX playerY direction : Int)
    (entityPositions : List Position) : Bool :=
  let tempRow : Int → MazeTile := fun x => m.grid playerY x
  (List.range (m.width - 2).toNat).any (fun i =>
    let x : Int := 1 + Int.ofNat i
    if x = playerX then false
    else
      decide ((tempRow x).tileType = TileType.Wall) &&
      decide (Position.mk (rotDest m.width x direction) playerY ∈ entityPositions))

/-- ClearHighlights from part_008. -/
def Maze.ClearHighlights (m : Maze) : Maze :=
  { m with grid := fun y x =>
      if 0 ≤ y ∧ y < m.height ∧ 0 ≤ x ∧ x < m.width then
        { m.grid y x with highlighted := false }
      else m.grid y x }

/-- PerformXRotate from part_008: same loop as `CheckXRotateCollisions` but
actually writing the snapshotted tiles into their destinations (tile value
moved unchanged), then clearing highlights.  The source performs no bounds
check on `playerY` here (the coordinator always passes a valid row). -/
def Maze.PerformXRotate (m : Maze) (playerX playerY direction : Int) : Maze :=
  let tempRow : Int → MazeTile := fun x => m.grid playerY x
  let rotated := rotFold m.width playerX playerY direction
      (fun t _ => t) tempRow m.grid
  let m1 := { m with grid := rotated }
  m1.ClearHighlights

end mazeEight

/-! Maze generator from internal/game/maze/generator.go.  `Generate` seeds a
local `rand` source (modelled by `seedStream`); `ensurePathToGoal`
additionally draws from the package-global `rand` (modelled by the separate
`globalStream`).  Loops whose termination depends on the drawn values take
explicit fuel and return `none` on exhaustion — a run the Go program would
not complete. -/

/-- abs helper from generator.go. -/
def intAbs (x : Int) : Int :=
  if x < 0 then -x else x

/-- Direction tables from generator.go: `dx := {0, 1, 0, -1}`. -/
def dxList : List Int := [0, 1, 0, -1]

/-- Direction tables from generator.go: `dy := {-1, 0, 1, 0}`. -/
def dyList : List Int := [-1, 0, 1, 0]

/-- Stack loop of `generatePathways` (randomized depth-first carving): while
the stack is nonempty, gather unvisited two-step neighbours of the top cell
inside the non-border region; if any exist pick one at random, carve the
intermediate wall and the destination to Floor, mark visited and push;
otherwise pop. -/
def carveGo (w h : Int) : Nat → List Position → (Int → Int → Bool) → State → Rand →
    Option (State × Rand)
  | 0, _, _, _, _ => none
  | fuel + 1, stack, visited, s, r =>
    match stack with
    | [] => some (s, r)
    | current :: rest =>
      let neighbors := (List.range 4).filter (fun d =>
        let nx := current.x + (dxList.getD d 0) * 2
        let ny := current.y + (dyList.getD d 0) * 2
        decide (1 ≤ nx ∧ nx < w - 1 ∧ 1 ≤ ny ∧ ny < h - 1 ∧ visited ny nx = false))
      if 0 < neighbors.length then
        let vr := randIntn r (Int.ofNat neighbors.length)
        let d := neighbors.getD vr.1.toNat 0
        let nx := current.x + (dxList.getD d 0) * 2
        let ny := current.y + (dyList.getD d 0) * 2
        let betweenX := current.x + (dxList.getD d 0)
        let betweenY := current.y + (dyList.getD d 0)
        let s1 := (s.SetTileType betweenX betweenY TileType.Floor).SetTileType
            nx ny TileType.Floor
        let visited1 := fun y2 x2 => if y2 = ny ∧ x2 = nx then true else visited y2 x2
        carveGo w h fuel (Position.mk nx ny :: current :: rest) visited1 s1 vr.2
      else
        carveGo w h fuel rest visited s r

/-- generatePathways from generator.go: mark the start as Floor and visited,
then run the carving stack loop. -/
def generatePathways (s : State) (startX startY : Int) (r : Rand) (fuel : Nat) :
    Option (State × Rand) :=
  let s1 := s.SetTileType startX startY TileType.Floor
  let visited0 : Int → Int → Bool := fun y x => decide (y = startY ∧ x = startX)
  carveGo s.width s.height fuel [Position.mk startX startY] visited0 s1 r

/-- Bounds-checked "this tile is a Wall" read used by `addRandomPaths`
(`state.GetTile(x, y).Type == Wall`; the coordinates drawn are always in
range, so the `none` default is never taken). -/
def tileIsWall (s : State) (x y : Int) : Bool :=
  match s.GetTile x y with
  | some t => decide (t.ty = TileType.Wall)
  | none => false

/-- Neighbour probe of `addRandomPaths`, written exactly with the argument
order the source uses (`state.GetTile(y-1, x)` etc., whose first argument is
`GetTile`'s x-parameter): `some Floor` counts. -/
def goFloorHit (s : State) (a b : Int) : Bool :=
  match s.GetTile a b with
  | some t => decide (t.ty = TileType.Floor)
  | none => false

/-- Retry loop of `addRandomPaths`: draw interior coordinates until they
name a Wall cell. -/
def pickWallGo (s : State) : Nat → Rand → Option (Int × Int × Rand)
  | 0, _ => none
  | fuel + 1, r =>
    let vx := randIntn r (s.width - 2)
    let x := vx.1 + 1
    let vy := randIntn vx.2 (s.height - 2)
    let y := vy.1 + 1
    if tileIsWall s x y = true ∧ 0 < x ∧ x < s.width - 1 ∧ 0 < y ∧ y < s.height - 1 then
      some (x, y, vy.2)
    else pickWallGo s fuel vy.2

/-- Body of one `addRandomPaths` attempt: count the Floor neighbours the
source actually probes (note the transposed `GetTile(y-1, x)`-style calls)
and convert the candidate wall to Floor when that count is at least 2. -/
def attemptConvert (s : State) (x y : Int) : State :=
  if 2 ≤ ((if goFloorHit s (y - 1) x = true then 1 else 0) +
          (if goFloorHit s (y + 1) x = true then 1 else 0) +
          (if goFloorHit s y (x - 1) = true then 1 else 0) +
          (if goFloorHit s y (x + 1) = true then 1 else 0) : Nat) then
    s.SetTileType x y TileType.Floor
  else s

/-- Attempt loop of `addRandomPaths`: for each attempt, pick a random
interior wall and run the conversion body on it. -/
def addRandomPathsGo (fuelInner : Nat) : Nat → State → Rand → Option (State × Rand)
  | 0, s, r => some (s, r)
  | n + 1, s, r =>
    match pickWallGo s fuelInner r with
    | none => none
    | some (x, y, r1) => addRandomPathsGo fuelInner n (attemptConvert s x y) r1

/-- addRandomPaths from generator.go: `(width+height)/3` conversion
attempts. -/
def addRandomPaths (s : State) (r : Rand) (fuel : Nat) : Option (State × Rand) :=
  addRandomPathsGo fuel ((s.width + s.height) / 3).toNat s r

/-- Rejection-sampling loop of `chooseGoalPosition`: draw a cell in the
bottom-right quarter until its Manhattan distance from (1,1) is at least
`(width+height)/3`. -/
def chooseGoalGo (w h : Int) : Nat → Rand → Option (Int × Int × Rand)
  | 0, _ => none
  | fuel + 1, r =>
    let v1 := randIntn r (w / 4)
    let goalX := w - 2 - v1.1
    let v2 := randIntn v1.2 (h / 4)
    let goalY := h - 2 - v2.1
    if (w + h) / 3 ≤ intAbs (goalX - 1) + intAbs (goalY - 1) then
      some (goalX, goalY, v2.2)
    else chooseGoalGo w h fuel v2.2

/-- chooseGoalPosition from generator.go. -/
def chooseGoalPosition (s : State) (r : Rand) (fuel : Nat) : Option (Int × Int × Rand) :=
  chooseGoalGo s.width s.height fuel r

/-- The four BFS offsets of `hasPath` as (dx, dy) pairs, in source order. -/
def bfsDirs : List (Int × Int) := [(0, -1), (1, 0), (0, 1), (-1, 0)]

/-- One direction probe of the BFS loop of `hasPath`: if the neighbour of
`current` in direction `d` is in bounds, not a Wall and unvisited, mark it
visited and enqueue it. -/
def bfsStep (s : State) (current : Position)
    (acc : (Int → Int → Bool) × List Position) (d : Int × Int) :
    (Int → Int → Bool) × List Position :=
  let nx := current.x + d.1
  let ny := current.y + d.2
  if 0 ≤ nx ∧ nx < s.width ∧ 0 ≤ ny ∧ ny < s.height ∧
      (s.tile ny nx).ty ≠ TileType.Wall ∧ acc.1 ny nx = false then
    (fun y2 x2 => if y2 = ny ∧ x2 = nx then true else acc.1 y2 x2,
     acc.2 ++ [Position.mk nx ny])
  else acc

/-- BFS loop of `hasPath`: dequeue, stop with true on the goal, otherwise
probe the four cardinal neighbours in source order; false when the queue
empties. -/
def bfsGo (s : State) (goalX goalY : Int) : Nat → (Int → Int → Bool) → List Position →
    Option Bool
  | 0, _, _ => none
  | fuel + 1, visited, queue =>
    match queue with
    | [] => some false
    | current :: rest =>
      if current.x = goalX ∧ current.y = goalY then some true
      else
        let step := bfsDirs.foldl (bfsStep s current) (visited, rest)
        bfsGo s goalX goalY fuel step.1 step.2

/-- hasPath from generator.go: BFS from the start with only the start
visited and enqueued. -/
def hasPath (s : State) (startX startY goalX goalY : Int) (fuel : Nat) : Option Bool :=
  bfsGo s goalX goalY fuel (fun y x => decide (y = startY ∧ x = startX))
    [Position.mk startX startY]

/-- Repair loop of `ensurePathToGoal`: while not at the goal, draw from the
package-global source (!) to decide between an x-step and a y-step toward
the goal, carving the stepped-to cell to Floor (the loop body then floors
the current cell again — and floors it even on iterations in which neither
branch fires). -/
def ensureGo (goalX goalY : Int) : Nat → Int → Int → State → Rand → Option (State × Rand)
  | 0, cx, cy, s, r => if cx = goalX ∧ cy = goalY then some (s, r) else none
  | fuel + 1, cx, cy, s, r =>
    if cx = goalX ∧ cy = goalY then some (s, r)
    else if (randIntn r 2).1 = 0 ∧ cx ≠ goalX then
      ensureGo goalX goalY fuel (cx + (if goalX < cx then (-1 : Int) else 1)) cy
        ((s.SetTileType (cx + (if goalX < cx then (-1 : Int) else 1)) cy
            TileType.Floor).SetTileType (cx + (if goalX < cx then (-1 : Int) else 1)) cy
          TileType.Floor) (randIntn r 2).2
    else if cy ≠ goalY then
      ensureGo goalX goalY fuel cx (cy + (if goalY < cy then (-1 : Int) else 1))
        ((s.SetTileType cx (cy + (if goalY < cy then (-1 : Int) else 1))
            TileType.Floor).SetTileType cx (cy + (if goalY < cy then (-1 : Int) else 1))
          TileType.Floor) (randIntn r 2).2
    else
      ensureGo goalX goalY fuel cx cy (s.SetTileType cx cy TileType.Floor) (randIntn r 2).2

/-- ensurePathToGoal from generator.go: BFS first; if the goal is already
reachable do nothing, otherwise run the stairstep repair loop (which draws
from the package-global random source). -/
def ensurePathToGoal (s : State) (startX startY goalX goalY : Int) (grand : Rand)
    (fuel : Nat) : Option (State × Rand) :=
  match hasPath s startX startY goalX goalY fuel with
  | none => none
  | some true => some (s, grand)
  | some false => ensureGo goalX goalY fuel startX startY s grand

/-- setFlavorImages from generator.go: every in-bounds non-Wall tile gets
`assets/hallway/1.jpg` or `assets/hallway/2.jpg` by id parity; tile types
and positions are untouched. -/
def setFlavorImages (s : State) : State :=
  { s with tile := fun y x =>
      if 0 ≤ y ∧ y < s.height ∧ 0 ≤ x ∧ x < s.width ∧ (s.tile y x).ty ≠ TileType.Wall then
        { s.tile y x with flavorImage :=
            if (s.tile y x).id % 2 = 0 then "assets/hallway/1.jpg"
            else "assets/hallway/2.jpg" }
      else s.tile y x }

/-- Generate from generator.go.  `seedStream` models the local source
`rand.New(rand.NewSource(g.RandomSeed))` (a fixed seed fixes this stream);
`globalStream` models the package-global `rand` state that
`ensurePathToGoal` draws from. -/
def Generate (width height : Int) (seedStream globalStream : Nat → Nat) (fuel : Nat) :
    Option State :=
  let state0 := NewState width height
  let r0 : Rand := ⟨seedStream, 0⟩
  let g0 : Rand := ⟨globalStream, 0⟩
  match generatePathways state0 1 1 r0 fuel with
  | none => none
  | some (s1, r1) =>
    match addRandomPaths s1 r1 fuel with
    | none => none
    | some (s2, r2) =>
      match chooseGoalPosition s2 r2 fuel with
      | none => none
      | some (gx, gy, _) =>
        let s3 := s2.SetTileType gx gy TileType.Goal
        let s3b := { s3 with goalX := gx, goalY := gy }
        match ensurePathToGoal s3b 1 1 gx gy g0 fuel with
        | none => none
        | some (s4, _) =>
          let s5 := ((s4.SetTileType 1 1 TileType.Floor).SetTileType 3 3
              TileType.Floor).SetTileType 5 5 TileType.Floor
          some (setFlavorImages s5)

/-- One connectivity step in the sense of `hasPath`'s breadth-first search:
`q` is in bounds, not Wall-typed, and one cardinal step away from `p`. -/
def stepAdj (s : State) (p q : Position) : Prop :=
  0 ≤ q.x ∧ q.x < s.width ∧ 0 ≤ q.y ∧ q.y < s.height ∧
  (s.tile q.y q.x).ty ≠ TileType.Wall ∧
  ((q.x - p.x = 1 ∧ q.y = p.y) ∨ (q.x - p.x = -1 ∧ q.y = p.y) ∨
   (q.x = p.x ∧ q.y - p.y = 1) ∨ (q.x = p.x ∧ q.y - p.y = -1))

/-- Connectivity through non-Wall tiles by cardinal steps — existence of
the connected path that `hasPath`'s breadth-first search searches for. -/
def Reach (s : State) (p q : Position) : Prop :=
  Relation.ReflTransGen (stepAdj s) p q

/-- Border invariant: every cell of the outer ring is Wall-typed. -/
def borderWall (s : State) : Prop :=
  ∀ x y : Int, 0 ≤ x → x < s.width → 0 ≤ y → y < s.height →
    (x = 0 ∨ x = s.width - 1 ∨ y = 0 ∨ y = s.height - 1) →
    (s.tile y x).ty = TileType.Wall

/-- Seeded stream of the concrete 6×6 generation runs. -/
def gen6SeedStream : Nat → Nat := fun _ => 3

/-- First concrete state of the package-global source. -/
def gen6GlobalA : Nat → Nat := fun _ => 0

/-- Second concrete state of the package-global source. -/
def gen6GlobalB : Nat → Nat := fun i => if i < 3 then 1 else 0

/-- Seeded stream of the concrete 7×7 generation run (chosen so every
random draw of the run is explicit). -/
def gen7SeedStream : Nat → Nat := fun i =>
  [3, 3, 3, 3, 3, 3, 3, 3, 1, 0, 1, 2, 3, 1, 3, 3].getD i 0

/-- Concrete mid-generation state exercising `addRandomPaths`: a 6×6 grid
whose only Floor cells are (1,1) and (3,1), so the candidate wall (1,2) has
exactly one Floor cell among its own four orthogonal neighbours. -/
def exC5State : State :=
  { width := 6, height := 6, goalX := -1, goalY := -1,
    tile := fun y x =>
      { NewTile (y * 6 + x) TileType.Wall x y with
          ty := if (y = 1 ∧ x = 1) ∨ (y = 1 ∧ x = 3) then TileType.Floor
                else TileType.Wall } }

/-- Seeded stream for the `addRandomPaths` run on `exC5State`: the first
attempt draws candidate (x=1, y=2); the remaining attempts draw (4,4). -/
def c5Stream : Nat → Nat := fun i => if i = 0 then 0 else if i = 1 then 1 else 3

/-- A finite sequence of row rotations applied in order; each triple is
(playerX, playerY, direction). -/
def applyRotations (s : State) (rots : List (Int × Int × Int)) : State :=
  rots.foldl (fun acc t => acc.PerformXRotate t.1 t.2.1 t.2.2) s

/-- The concrete 6×6 maze generated with seeded stream `gen6SeedStream` and
global stream `gen6GlobalA` (its reachability repair runs and floors the
border cell (5,5) via the forced start writes). -/
def mGen6A : State :=
  (Generate 6 6 gen6SeedStream gen6GlobalA 1000).get (by decide)

/-- The concrete 7×7 maze generated with seeded stream `gen7SeedStream`. -/
def mGen7 : State :=
  (Generate 7 7 gen7SeedStream gen6GlobalA 1000).get (by decide)

namespace npc

/-- NPC from part_001 (npc package).  The render-only `Color` field is
omitted: it is never read nor written by the movement or turn logic
modelled here. -/
structure NPC where
  id : Int
  gridX : Int
  gridY : Int
  x : ℚ
  y : ℚ
  destX : ℚ
  destY : ℚ
  moving : Bool
  size : ℚ
  hasMoved : Bool
deriving DecidableEq, Repr

/-- Swap of two list positions (the closure Go passes to `rand.Shuffle`). -/
def swapAt {A : Type} (l : List A) (i j : Nat) : List A :=
  match l.get? i, l.get? j with
  | some a, some b => (l.set i b).set j a
  | _, _ => l

/-- Fisher–Yates loop of Go's `rand.Shuffle`:
`for i := n-1; i > 0; i-- { j := Intn(i+1); swap(i, j) }`; the parameter is
the current value of `i`. -/
def shuffleFrom {A : Type} : Nat → List A → Rand → List A × Rand
  | 0, l, r => (l, r)
  | i + 1, l, r =>
    let jr := randIntn r (Int.ofNat i + 2)
    shuffleFrom i (swapAt l (i + 1) jr.1.toNat) jr.2

/-- Go's `rand.Shuffle` over a list (drawing from the package-global
source, modelled by the `Rand` argument). -/
def randShuffle {A : Type} (l : List A) (r : Rand) : List A × Rand :=
  match l.length with
  | 0 => (l, r)
  | n + 1 => shuffleFrom n l r

/-- Inner loop of `NPC.TryMove`: try each (already shuffled) direction in
order; the first valid destination starts the move; if none is valid the
NPC is marked as moved anyway. -/
def tryDirsGo (n : NPC) (validMoveFn : Int → Int → Bool) :
    List (Int × Int) → NPC × Bool
  | [] => ({ n with hasMoved := true }, false)
  | d :: rest =>
    let newGridX := n.gridX + d.1
    let newGridY := n.gridY + d.2
    if validMoveFn newGridX newGridY then
      ({ n with gridX := newGridX, gridY := newGridY,
                destX := newGridX * n.size, destY := newGridY * n.size,
                moving := true, hasMoved := true }, true)
    else tryDirsGo n validMoveFn rest

/-- TryMove from part_001: no-op while moving or already moved; otherwise
shuffle the four cardinal offsets and take the first valid one (grid
position updates immediately, smooth movement starts); with no valid
offset, mark the NPC as moved anyway. -/
def NPC.TryMove (n : NPC) (validMoveFn : Int → Int → Bool) (r : Rand) :
    NPC × Bool × Rand :=
  if n.moving || n.hasMoved then (n, false, r)
  else
    let sh := randShuffle [((-1 : Int), (0 : Int)), (1, 0), (0, -1), (0, 1)] r
    let res := tryDirsGo n validMoveFn sh.1
    (res.1, res.2, sh.2)

/-- NPC manager from part_001. -/
structure Manager where
  npcs : List NPC

/-- AnyMoving from part_001. -/
def Manager.AnyMoving (m : Manager) : Bool :=
  m.npcs.any (fun n => n.moving)

/-- AllMoved from part_001. -/
def Manager.AllMoved (m : Manager) : Bool :=
  m.npcs.all (fun n => n.hasMoved)

/-- Loop body of `Manager.ProcessTurn`: walk the NPC list; for each NPC not
yet moved and not moving, call `TryMove`; stop at the first successful move
(the Go loop returns there), otherwise continue — NPCs that could not move
keep their freshly set moved flag. -/
def processGo (validMoveFn : Int → Int → Bool) :
    List NPC → Rand → List NPC × Bool × Rand
  | [], r => ([], false, r)
  | n :: rest, r =>
    if !n.hasMoved && !n.moving then
      let tm := n.TryMove validMoveFn r
      if tm.2.1 then (tm.1 :: rest, true, tm.2.2)
      else
        let pr := processGo validMoveFn rest tm.2.2
        (tm.1 :: pr.1, pr.2.1, pr.2.2)
    else
      let pr := processGo validMoveFn rest r
      (n :: pr.1, pr.2.1, pr.2.2)

/-- ProcessTurn from part_001: wait while any NPC is moving; done when all
have moved; otherwise walk the list processing NPCs that have not moved. -/
def Manager.ProcessTurn (m : Manager) (validMoveFn : Int → Int → Bool) (r : Rand) :
    Manager × Bool × Rand :=
  if m.AnyMoving then (m, false, r)
  else if m.AllMoved then (m, false, r)
  else
    let pr := processGo validMoveFn m.npcs r
    (⟨pr.1⟩, pr.2.1, pr.2.2)

end npc

/-- Concrete NPC with no valid neighbouring cell under `exPred` (used to
show one `ProcessTurn` call can change several NPCs). -/
def exNpcA : npc.NPC :=
  { id := 0, gridX := 10, gridY := 10, x := 300, y := 300, destX := 300,
    destY := 300, moving := false, size := 30, hasMoved := false }

/-- Concrete NPC that can move to cell (1,0) under `exPred`. -/
def exNpcB : npc.NPC :=
  { id := 1, gridX := 0, gridY := 0, x := 0, y := 0, destX := 0,
    destY := 0, moving := false, size := 30, hasMoved := false }

/-- Validity predicate accepting only cell (1,0). -/
def exPred : Int → Int → Bool :=
  fun x y => decide (x = 1 ∧ y = 0)

/-- Concrete part_008 maze used to exercise the collision pre-check: a 6×6
grid that is all Floor except for a Wall at cell (x=1, y=3), away from the
rotated row. -/
def exMaze8 : mazeEight.Maze :=
  { width := 6, height := 6, centerX := 0, centerY := 0, goalX := 4, goalY := 4,
    grid := fun y x =>
      { tileType := if y = 3 ∧ x = 1 then TileType.Wall else TileType.Floor,
        visited := false, hasItem := false, itemType := 0, highlighted := false } }

/-- Cooldowns under iterated `UpdateCooldowns` count down to zero and stop. -/
theorem updateCooldowns_iterate (k : Nat) (m : action.Manager) (t : action.ActionType)
    (h : 0 ≤ m.cooldowns t) :
    ((action.Manager.UpdateCooldowns)^[k] m).cooldowns t = max (m.cooldowns t - k) 0 := by
  induction k generalizing m with
  | zero =>
    simp only [Function.iterate_zero, id]
    omega
  | succ n ih =>
    rw [Function.iterate_succ_apply]
    have hstep : (m.UpdateCooldowns).cooldowns t =
        if m.cooldowns t > 0 then m.cooldowns t - 1 else m.cooldowns t := rfl
    have h2 : 0 ≤ (m.UpdateCooldowns).cooldowns t := by
      rw [hstep]; split <;> omega
    rw [ih _ h2, hstep]
    split <;> omega

/-! Theorems for claims C9 and C10. -/

/-- C9: `Player.SetDestination` unconditionally accepts every call — for
every player state (in particular one with `moving = true`) it overwrites
the grid coordinates and render-space destination with the new target and
sets `moving`, leaving the other fields alone; an in-progress move is
silently retargeted, never rejected. -/
theorem c9_setDestination_unconditional (p : player.Player) (gridX gridY : Int) (tileSize : ℚ) :
    p.SetDestination gridX gridY tileSize =
      { p with gridX := gridX, gridY := gridY,
               destX := gridX * tileSize, destY := gridY * tileSize,
               moving := true } := rfl

/-- C10: with `playerY` outside `[0, height)`, `PerformXRotate` returns the
state entirely unchanged (it returns before moving any tile or clearing any
highlight), and `HighlightXRotation` changes nothing except clearing all
existing highlights (it equals `ClearHighlights`). -/
theorem c10_out_of_bounds_row_safe (s : Mazenasium.State) (playerX playerY direction : Int)
    (h : playerY < 0 ∨ playerY ≥ s.height) :
    s.PerformXRotate playerX playerY direction = s ∧
    s.HighlightXRotation playerX playerY = s.ClearHighlights := by
  constructor
  · unfold Mazenasium.State.PerformXRotate
    simp only [if_pos h]
  · unfold Mazenasium.State.HighlightXRotation
    have h2 : playerY < 0 ∨ playerY ≥ s.ClearHighlights.height := h
    simp only [if_pos h2]

/-- Witness for C10 at a concrete state and row index. -/
theorem c10_out_of_bounds_row_safe_witness :
    ((-1 : Int) < 0 ∨ (-1 : Int) ≥ (Mazenasium.NewState 6 6).height) ∧
    ((Mazenasium.NewState 6 6).PerformXRotate 2 (-1) 1 = Mazenasium.NewState 6 6 ∧
     (Mazenasium.NewState 6 6).HighlightXRotation 2 (-1) = (Mazenasium.NewState 6 6).ClearHighlights) :=
  ⟨Or.inl (by decide),
   c10_out_of_bounds_row_safe (Mazenasium.NewState 6 6) 2 (-1) 1 (Or.inl (by decide))⟩

/-- C8: for every action type in the catalog, immediately after
`UseAction t` the action is unavailable and absent from
`GetAvailableActions`; every `UpdateCooldowns` call decrements each nonzero
cooldown by exactly one and never drives it below zero; and the action
becomes available again after exactly `catalogCooldown t` (= 120) calls to
`UpdateCooldowns` and no sooner. -/
theorem c8_cooldown_lifecycle (m : action.Manager)
    (hcat : m.actions = action.defaultActions) (t : action.ActionType) :
    (m.UseAction t).IsActionAvailable t = false
    ∧ (∀ a ∈ (m.UseAction t).GetAvailableActions, a.ty ≠ t)
    ∧ (∀ (m2 : action.Manager) (t2 : action.ActionType),
        (m2.UpdateCooldowns).cooldowns t2 =
          (if 0 < m2.cooldowns t2 then m2.cooldowns t2 - 1 else m2.cooldowns t2)
        ∧ (0 ≤ m2.cooldowns t2 → 0 ≤ (m2.UpdateCooldowns).cooldowns t2))
    ∧ (∀ k : Nat, (k : Int) < action.catalogCooldown t →
        ((action.Manager.UpdateCooldowns)^[k] (m.UseAction t)).IsActionAvailable t = false)
    ∧ ((action.Manager.UpdateCooldowns)^[(action.catalogCooldown t).toNat]
        (m.UseAction t)).IsActionAvailable t = true := by
  have hfind : m.actions.find? (fun a => a.ty = t) =
      action.defaultActions.find? (fun a => a.ty = t) := by rw [hcat]
  have hcd : (m.UseAction t).cooldowns t = 120 := by
    unfold action.Manager.UseAction
    rw [hfind]
    cases t <;> rfl
  have hdur : action.catalogCooldown t = 120 := by
    cases t <;> rfl
  refine ⟨?_, ?_, ?_, ?_, ?_⟩
  · unfold action.Manager.IsActionAvailable
    rw [hcd]
    decide
  · intro a ha hty
    have hmem := List.mem_filter.mp ha
    have hav := hmem.2
    unfold action.Manager.IsActionAvailable at hav
    rw [hty, hcd] at hav
    exact absurd (of_decide_eq_true hav) (by decide)
  · intro m2 t2
    refine ⟨rfl, ?_⟩
    intro h2
    have hstep : (m2.UpdateCooldowns).cooldowns t2 =
        if m2.cooldowns t2 > 0 then m2.cooldowns t2 - 1 else m2.cooldowns t2 := rfl
    rw [hstep]; split <;> omega
  · intro k hk
    rw [hdur] at hk
    have hit := updateCooldowns_iterate k (m.UseAction t) t (by rw [hcd]; decide)
    rw [hcd] at hit
    unfold action.Manager.IsActionAvailable
    rw [hit]
    exact decide_eq_false (by omega)
  · have he : (action.catalogCooldown t).toNat = 120 := by rw [hdur]; rfl
    rw [he]
    have hit := updateCooldowns_iterate 120 (m.UseAction t) t (by rw [hcd]; decide)
    rw [hcd] at hit
    unfold action.Manager.IsActionAvailable
    refine decide_eq_true ?_
    rw [hit]
    omega

/-- Witness for C8 at the freshly constructed manager and the left-rotation
action. -/
theorem c8_cooldown_lifecycle_witness :
    action.NewManager.actions = action.defaultActions ∧
    ((action.NewManager.UseAction action.ActionType.XRotateLeft).IsActionAvailable
        action.ActionType.XRotateLeft = false
     ∧ (∀ a ∈ (action.NewManager.UseAction action.ActionType.XRotateLeft).GetAvailableActions,
          a.ty ≠ action.ActionType.XRotateLeft)
     ∧ (∀ (m2 : action.Manager) (t2 : action.ActionType),
         (m2.UpdateCooldowns).cooldowns t2 =
           (if 0 < m2.cooldowns t2 then m2.cooldowns t2 - 1 else m2.cooldowns t2)
         ∧ (0 ≤ m2.cooldowns t2 → 0 ≤ (m2.UpdateCooldowns).cooldowns t2))
     ∧ (∀ k : Nat, (k : Int) < action.catalogCooldown action.ActionType.XRotateLeft →
         ((action.Manager.UpdateCooldowns)^[k]
           (action.NewManager.UseAction action.ActionType.XRotateLeft)).IsActionAvailable
             action.ActionType.XRotateLeft = false)
     ∧ ((action.Manager.UpdateCooldowns)^[(action.catalogCooldown
           action.ActionType.XRotateLeft).toNat]
         (action.NewManager.UseAction action.ActionType.XRotateLeft)).IsActionAvailable
           action.ActionType.XRotateLeft = true) :=
  ⟨rfl, c8_cooldown_lifecycle action.NewManager rfl action.ActionType.XRotateLeft⟩

/-! Pointwise description of the rotation loop. -/

/-- Interior columns map to interior columns under the wrapped step. -/
theorem rotDest_interior (w x dir : Int) (hw : 3 ≤ w) (hdir : dir = 1 ∨ dir = -1)
    (hx1 : 1 ≤ x) (hx2 : x ≤ w - 2) :
    1 ≤ rotDest w x dir ∧ rotDest w x dir ≤ w - 2 := by
  rcases hdir with rfl | rfl <;> simp only [rotDest] <;> split_ifs <;> omega

/-- Negating the direction keeps it in `{1, -1}`. -/
theorem neg_dir_cases (dir : Int) (hdir : dir = 1 ∨ dir = -1) :
    -dir = 1 ∨ -dir = -1 := by
  rcases hdir with rfl | rfl
  · exact Or.inr (by omega)
  · exact Or.inl (by omega)

/-- The wrapped step in direction `-dir` inverts the wrapped step in
direction `dir` on interior columns. -/
theorem rotDest_left_inverse (w x dir : Int) (hw : 3 ≤ w) (hdir : dir = 1 ∨ dir = -1)
    (hx1 : 1 ≤ x) (hx2 : x ≤ w - 2) :
    rotDest w (rotDest w x dir) (-dir) = x := by
  rcases hdir with rfl | rfl <;> simp only [rotDest] <;> split_ifs <;> omega

/-- The wrapped step in direction `dir` undoes the wrapped step in
direction `-dir` on interior columns. -/
theorem rotDest_right_inverse (w x dir : Int) (hw : 3 ≤ w) (hdir : dir = 1 ∨ dir = -1)
    (hx1 : 1 ≤ x) (hx2 : x ≤ w - 2) :
    rotDest w (rotDest w x (-dir)) dir = x := by
  have h := rotDest_left_inverse w x (-dir) hw (neg_dir_cases dir hdir) hx1 hx2
  rwa [neg_neg] at h

/-- Pointwise description of the rotation loop after processing source
columns `1 … m`: a cell of the rotated row holds the adjusted snapshot of
its wrap-predecessor exactly when that unique interior source is a processed
non-player column; every other cell still holds its original value. -/
theorem rotFoldN_apply {A : Type} (w px py dir : Int) (adjust : A → Int → A)
    (temp : Int → A) (g : Int → Int → A) (hw : 3 ≤ w) (hdir : dir = 1 ∨ dir = -1)
    (m : Nat) (hm : (m : Int) ≤ w - 2) (y x : Int) :
    rotFoldN w px py dir adjust temp g m y x =
      (if y = py ∧ 1 ≤ x ∧ x ≤ w - 2 ∧ rotDest w x (-dir) ≠ px ∧
          rotDest w x (-dir) ≤ (m : Int) then
        adjust (temp (rotDest w x (-dir))) x
      else g y x) := by
  induction m with
  | zero =>
    simp only [rotFoldN]
    rw [if_neg]
    rintro ⟨hy, hx1, hx2, hne, hle⟩
    have hint := rotDest_interior w x (-dir) hw (neg_dir_cases dir hdir) hx1 hx2
    have hle2 : rotDest w x (-dir) ≤ 0 := by exact_mod_cast hle
    omega
  | succ n ih =>
    have ihn := ih (by omega)
    simp only [rotFoldN, Int.ofNat_eq_coe]
    by_cases hpx : (1 + (n : Int)) = px
    · rw [if_pos hpx, ihn]
      split_ifs with h1 h2 h2
      · rfl
      · exact absurd ⟨h1.1, h1.2.1, h1.2.2.1, h1.2.2.2.1, by omega⟩ h2
      · rcases h2 with ⟨hy, hx1, hx2, hne, hle⟩
        have hnle : ¬ (rotDest w x (-dir) ≤ (n : Int)) := fun hle2 =>
          h1 ⟨hy, hx1, hx2, hne, hle2⟩
        have heq : rotDest w x (-dir) = 1 + (n : Int) := by omega
        exact absurd (heq.trans hpx) hne
      · rfl
    · rw [if_neg hpx]
      by_cases hcell : y = py ∧ x = rotDest w (1 + (n : Int)) dir
      · have hx01 : (1 : Int) ≤ 1 + (n : Int) := by omega
        have hx02 : (1 + (n : Int)) ≤ w - 2 := by omega
        have hdint := rotDest_interior w (1 + (n : Int)) dir hw hdir hx01 hx02
        have hinv : rotDest w (rotDest w (1 + (n : Int)) dir) (-dir) =
            1 + (n : Int) :=
          rotDest_left_inverse w (1 + (n : Int)) dir hw hdir hx01 hx02
        rcases hcell with ⟨hy, hx⟩
        have hlhs : writeCell (rotFoldN w px py dir adjust temp g n) py
            (rotDest w (1 + (n : Int)) dir)
            (adjust (temp (1 + (n : Int))) (rotDest w (1 + (n : Int)) dir)) y x =
            adjust (temp (1 + (n : Int))) (rotDest w (1 + (n : Int)) dir) := by
          unfold writeCell
          rw [if_pos ⟨hy, hx⟩]
        rw [hlhs, if_pos]
        · rw [hx, hinv]
        · subst hx
          exact ⟨hy, hdint.1, hdint.2, by rw [hinv]; exact hpx, by rw [hinv]; omega⟩
      · have hlhs : writeCell (rotFoldN w px py dir adjust temp g n) py
            (rotDest w (1 + (n : Int)) dir)
            (adjust (temp (1 + (n : Int))) (rotDest w (1 + (n : Int)) dir)) y x =
            rotFoldN w px py dir adjust temp g n y x := by
          unfold writeCell
          rw [if_neg hcell]
        rw [hlhs, ihn]
        split_ifs with h1 h2 h2
        · rfl
        · exact absurd ⟨h1.1, h1.2.1, h1.2.2.1, h1.2.2.2.1, by omega⟩ h2
        · rcases h2 with ⟨hy, hx1, hx2, hne, hle⟩
          have hnle : ¬ (rotDest w x (-dir) ≤ (n : Int)) := fun hle2 =>
            h1 ⟨hy, hx1, hx2, hne, hle2⟩
          have heq : rotDest w x (-dir) = 1 + (n : Int) := by omega
          have hxisd : x = rotDest w (1 + (n : Int)) dir := by
            rw [← heq]
            exact (rotDest_right_inverse w x dir hw hdir hx1 hx2).symm
          exact absurd ⟨hy, hxisd⟩ hcell
        · rfl

/-- Pointwise description of the full rotation loop: with `dir ∈ {1,-1}`
and `w ≥ 3`, cell `(py, x)` of the rotated row receives the adjusted
snapshot of its wrap-predecessor `rotDest w x (-dir)` unless that
predecessor is the skipped player column; all other cells are untouched. -/
theorem rotFold_apply {A : Type} (w px py dir : Int) (adjust : A → Int → A)
    (temp : Int → A) (g : Int → Int → A) (hw : 3 ≤ w) (hdir : dir = 1 ∨ dir = -1)
    (y x : Int) :
    rotFold w px py dir adjust temp g y x =
      (if y = py ∧ 1 ≤ x ∧ x ≤ w - 2 ∧ rotDest w x (-dir) ≠ px then
        adjust (temp (rotDest w x (-dir))) x
      else g y x) := by
  unfold rotFold
  have hcast : ((w - 2).toNat : Int) = w - 2 := by omega
  rw [rotFoldN_apply w px py dir adjust temp g hw hdir (w - 2).toNat (by omega) y x]
  split_ifs with h1 h2 h2
  · rfl
  · rcases h1 with ⟨hy, hx1, hx2, hne, _⟩
    exact absurd ⟨hy, hx1, hx2, hne⟩ h2
  · rcases h2 with ⟨hy, hx1, hx2, hne⟩
    have hint := rotDest_interior w x (-dir) hw (neg_dir_cases dir hdir) hx1 hx2
    exact absurd ⟨hy, hx1, hx2, hne, by omega⟩ h1
  · rfl

/-- Complete pointwise description of part_010 `State.PerformXRotate` for an
in-bounds row and `direction ∈ {1,-1}`: interior cells of the rotated row
whose wrap-predecessor is not the player's column receive that predecessor's
tile (with its `X` updated); every other cell keeps its tile; all in-bounds
cells get their highlight cleared. -/
theorem performXRotate_tile (s : State) (px py dir : Int)
    (hpy1 : 0 ≤ py) (hpy2 : py < s.height) (hw : 3 ≤ s.width)
    (hdir : dir = 1 ∨ dir = -1) (y x : Int) :
    (s.PerformXRotate px py dir).tile y x =
      (let base := if y = py ∧ 1 ≤ x ∧ x ≤ s.width - 2 ∧ rotDest s.width x (-dir) ≠ px
          then { s.tile py (rotDest s.width x (-dir)) with x := x }
          else s.tile y x
       if 0 ≤ y ∧ y < s.height ∧ 0 ≤ x ∧ x < s.width then { base with highlighted := false }
       else base) := by
  unfold State.PerformXRotate
  rw [if_neg (by omega)]
  show (if 0 ≤ y ∧ y < s.height ∧ 0 ≤ x ∧ x < s.width then
          { rotFold s.width px py dir (fun t newX => { t with x := newX })
              (fun x2 => s.tile py x2) s.tile y x with highlighted := false }
        else rotFold s.width px py dir (fun t newX => { t with x := newX })
              (fun x2 => s.tile py x2) s.tile y x) = _
  rw [rotFold_apply s.width px py dir _ _ _ hw hdir y x]

/-- Rotation never changes the width, height or cached goal of the state. -/
theorem performXRotate_dims (s : State) (px py dir : Int) :
    (s.PerformXRotate px py dir).width = s.width ∧
    (s.PerformXRotate px py dir).height = s.height ∧
    (s.PerformXRotate px py dir).goalX = s.goalX ∧
    (s.PerformXRotate px py dir).goalY = s.goalY := by
  unfold State.PerformXRotate
  split <;> exact ⟨rfl, rfl, rfl, rfl⟩

/-- Counterexample for C1 as stated: on a fresh 6×6 grid (row 1 holds the
pairwise-distinct tile ids 6…11), rotating with the player at interior
column 2 of row 1 and direction +1 changes the tile at the player's own
column (id 8 is replaced by id 7) and does not preserve the row's id
multiset (id 8 disappears and id 9 is duplicated). -/
theorem c1_counterexample :
    (((NewState 6 6).PerformXRotate 2 1 1).tile 1 2).id ≠ ((NewState 6 6).tile 1 2).id ∧
    Multiset.map (fun c => ((((NewState 6 6).PerformXRotate 2 1 1).tile 1 c).id))
        ({0, 1, 2, 3, 4, 5} : Multiset Int) ≠
      Multiset.map (fun c => (((NewState 6 6).tile 1 c).id))
        ({0, 1, 2, 3, 4, 5} : Multiset Int) := by
  decide

/-- C1 amended: `PerformXRotate` with `direction ∈ {1,-1}`, an in-bounds row
and an interior player column never reads the player's column as a source,
but the player's column is not left untouched: every interior cell `c` of
the row — including the player's own column — receives the tile previously
at its wrap-predecessor `rotDest width c (-direction)` (with `X` updated and
highlight cleared), except the single cell whose wrap-predecessor is the
skipped player column, which keeps its own tile.  Consequently the row's id
multiset loses the id at the player's column and duplicates the id at
`rotDest width playerX direction` rather than being preserved. -/
theorem c1_amended_rotation_pointwise (s : State) (playerX playerY direction : Int)
    (hpy1 : 0 ≤ playerY) (hpy2 : playerY < s.height)
    (hpx1 : 1 ≤ playerX) (hpx2 : playerX ≤ s.width - 2)
    (hdir : direction = 1 ∨ direction = -1) :
    ∀ c : Int, 1 ≤ c → c ≤ s.width - 2 →
      (s.PerformXRotate playerX playerY direction).tile playerY c =
        (if rotDest s.width c (-direction) = playerX then
          { s.tile playerY c with highlighted := false }
        else
          { s.tile playerY (rotDest s.width c (-direction)) with
              x := c, highlighted := false }) := by
  intro c hc1 hc2
  have hw : 3 ≤ s.width := by omega
  rw [performXRotate_tile s playerX playerY direction hpy1 hpy2 hw hdir playerY c]
  have hinb : 0 ≤ playerY ∧ playerY < s.height ∧ 0 ≤ c ∧ c < s.width := by omega
  split_ifs with h1 h2 h2
  · exact absurd h1.2.2.2 (not_not.mpr h2)
  · rfl
  · rfl
  · exact absurd (fun hne => h1 ⟨rfl, hc1, hc2, hne⟩) (not_not.mpr h2)

/-- Witness for the amended C1 at a concrete state, row, column and
direction. -/
theorem c1_amended_rotation_pointwise_witness :
    (0 ≤ (1 : Int)) ∧ ((1 : Int) < (NewState 6 6).height) ∧
    (1 ≤ (2 : Int)) ∧ ((2 : Int) ≤ (NewState 6 6).width - 2) ∧
    ((1 : Int) = 1 ∨ (1 : Int) = -1) ∧
    (∀ c : Int, 1 ≤ c → c ≤ (NewState 6 6).width - 2 →
      ((NewState 6 6).PerformXRotate 2 1 1).tile 1 c =
        (if rotDest (NewState 6 6).width c (-1) = 2 then
          { (NewState 6 6).tile 1 c with highlighted := false }
        else
          { (NewState 6 6).tile 1 (rotDest (NewState 6 6).width c (-1)) with
              x := c, highlighted := false })) :=
  ⟨by decide, by decide, by decide, by decide, Or.inl rfl,
   c1_amended_rotation_pointwise (NewState 6 6) 2 1 1 (by decide) (by decide)
     (by decide) (by decide) (Or.inl rfl)⟩

/-- The collision pre-check returns true exactly when some interior,
non-player source column currently holds a Wall whose wrapped destination in
the same row is an occupied cell. -/
theorem checkXRotateCollisions_iff (m : mazeEight.Maze) (px py dir : Int)
    (occ : List Position) :
    m.CheckXRotateCollisions px py dir occ = true ↔
      ∃ x : Int, 1 ≤ x ∧ x ≤ m.width - 2 ∧ x ≠ px ∧
        (m.grid py x).tileType = TileType.Wall ∧
        Position.mk (rotDest m.width x dir) py ∈ occ := by
  unfold mazeEight.Maze.CheckXRotateCollisions
  rw [List.any_eq_true]
  constructor
  · rintro ⟨i, hi, hp⟩
    rw [List.mem_range] at hi
    simp only [Int.ofNat_eq_coe] at hp
    by_cases hpx : (1 + (i : Int)) = px
    · rw [if_pos hpx] at hp
      exact absurd hp (by decide)
    · rw [if_neg hpx] at hp
      rw [Bool.and_eq_true, decide_eq_true_eq, decide_eq_true_eq] at hp
      exact ⟨1 + (i : Int), by omega, by omega, hpx, hp.1, hp.2⟩
  · rintro ⟨x, hx1, hx2, hne, hwall, hmem⟩
    refine ⟨(x - 1).toNat, ?_, ?_⟩
    · rw [List.mem_range]
      omega
    · simp only [Int.ofNat_eq_coe]
      have hxi : (1 + ((x - 1).toNat : Int)) = x := by omega
      simp only [hxi, if_neg hne, Bool.and_eq_true, decide_eq_true_eq]
      exact ⟨hwall, hmem⟩

/-- Complete pointwise description of part_008 `Maze.PerformXRotate` for
`direction ∈ {1,-1}`: same rotation as part_010 but the tile value moves
unchanged. -/
theorem maze8_performXRotate_grid (m : mazeEight.Maze) (px py dir : Int)
    (hw : 3 ≤ m.width) (hdir : dir = 1 ∨ dir = -1) (y x : Int) :
    (m.PerformXRotate px py dir).grid y x =
      (let base := if y = py ∧ 1 ≤ x ∧ x ≤ m.width - 2 ∧ rotDest m.width x (-dir) ≠ px
          then m.grid py (rotDest m.width x (-dir))
          else m.grid y x
       if 0 ≤ y ∧ y < m.height ∧ 0 ≤ x ∧ x < m.width then { base with highlighted := false }
       else base) := by
  unfold mazeEight.Maze.PerformXRotate
  show (if 0 ≤ y ∧ y < m.height ∧ 0 ≤ x ∧ x < m.width then
          { rotFold m.width px py dir (fun t _ => t)
              (fun x2 => m.grid py x2) m.grid y x with highlighted := false }
        else rotFold m.width px py dir (fun t _ => t)
              (fun x2 => m.grid py x2) m.grid y x) = _
  rw [rotFold_apply m.width px py dir _ _ _ hw hdir y x]

/-- Counterexample for C2 as stated: in a 6×6 part_008 maze whose only Wall
sits at the occupied cell (x=1, y=3) outside the rotated row, the pre-check
for rotating row 1 reports no collision, yet after the rotation the occupied
cell still holds a Wall-typed tile — the rotation merely did not touch it.
So "performing after a false pre-check never leaves a Wall on any occupied
cell" fails; only cells the rotation writes are protected. -/
theorem c2_counterexample :
    exMaze8.CheckXRotateCollisions 2 1 1 [Position.mk 1 3] = false ∧
    Position.mk 1 3 ∈ [Position.mk 1 3] ∧
    ((exMaze8.PerformXRotate 2 1 1).grid 3 1).tileType = TileType.Wall := by
  refine ⟨?_, by decide, ?_⟩
  · decide
  · decide

/-- C2 amended: the pre-check returns true iff the rotation's wrapped
source-to-destination mapping would move a Wall-typed tile onto an occupied
cell, and after a pre-check that returned false, `PerformXRotate` leaves no
Wall-typed tile on any occupied cell *that the rotation writes* (the
destination cells of the rotated row); occupied cells the rotation does not
write keep whatever tile they already had. -/
theorem c2_amended_collision_soundness (m : mazeEight.Maze) (px py dir : Int)
    (occ : List Position)
    (hpy1 : 0 ≤ py) (hpy2 : py < m.height)
    (hpx1 : 1 ≤ px) (hpx2 : px ≤ m.width - 2)
    (hdir : dir = 1 ∨ dir = -1) :
    (m.CheckXRotateCollisions px py dir occ = true ↔
      ∃ x : Int, 1 ≤ x ∧ x ≤ m.width - 2 ∧ x ≠ px ∧
        (m.grid py x).tileType = TileType.Wall ∧
        Position.mk (rotDest m.width x dir) py ∈ occ)
    ∧ (m.CheckXRotateCollisions px py dir occ = false →
        ∀ c : Int, 1 ≤ c → c ≤ m.width - 2 → rotDest m.width c (-dir) ≠ px →
          Position.mk c py ∈ occ →
          ((m.PerformXRotate px py dir).grid py c).tileType ≠ TileType.Wall) := by
  have hw : 3 ≤ m.width := by omega
  refine ⟨checkXRotateCollisions_iff m px py dir occ, ?_⟩
  intro hfalse c hc1 hc2 hne hmem hwallAfter
  have hdint := rotDest_interior m.width c (-dir) hw (neg_dir_cases dir hdir) hc1 hc2
  have hgrid := maze8_performXRotate_grid m px py dir hw hdir py c
  have hcond : py = py ∧ 1 ≤ c ∧ c ≤ m.width - 2 ∧ rotDest m.width c (-dir) ≠ px :=
    ⟨rfl, hc1, hc2, hne⟩
  have hinb : 0 ≤ py ∧ py < m.height ∧ 0 ≤ c ∧ c < m.width := by omega
  rw [hgrid] at hwallAfter
  simp only [if_pos hcond, if_pos hinb] at hwallAfter
  rw [if_pos (show True ∧ 1 ≤ c ∧ c ≤ m.width - 2 ∧ rotDest m.width c (-dir) ≠ px from
    ⟨trivial, hc1, hc2, hne⟩)] at hwallAfter
  have hsrcWall : (m.grid py (rotDest m.width c (-dir))).tileType = TileType.Wall :=
    hwallAfter
  have hdest : rotDest m.width (rotDest m.width c (-dir)) dir = c :=
    rotDest_right_inverse m.width c dir hw hdir hc1 hc2
  have hex : m.CheckXRotateCollisions px py dir occ = true :=
    (checkXRotateCollisions_iff m px py dir occ).mpr
      ⟨rotDest m.width c (-dir), hdint.1, hdint.2, hne, hsrcWall, by rw [hdest]; exact hmem⟩
  rw [hfalse] at hex
  exact absurd hex (by decide)

/-- Witness for the amended C2 at a concrete maze, row and occupancy list. -/
theorem c2_amended_collision_soundness_witness :
    (0 ≤ (1 : Int)) ∧ ((1 : Int) < exMaze8.height) ∧
    (1 ≤ (2 : Int)) ∧ ((2 : Int) ≤ exMaze8.width - 2) ∧
    ((1 : Int) = 1 ∨ (1 : Int) = -1) ∧
    ((exMaze8.CheckXRotateCollisions 2 1 1 [Position.mk 1 3] = true ↔
      ∃ x : Int, 1 ≤ x ∧ x ≤ exMaze8.width - 2 ∧ x ≠ 2 ∧
        (exMaze8.grid 1 x).tileType = TileType.Wall ∧
        Position.mk (rotDest exMaze8.width x 1) 1 ∈ [Position.mk 1 3])
    ∧ (exMaze8.CheckXRotateCollisions 2 1 1 [Position.mk 1 3] = false →
        ∀ c : Int, 1 ≤ c → c ≤ exMaze8.width - 2 → rotDest exMaze8.width c (-1) ≠ 2 →
          Position.mk c 1 ∈ [Position.mk 1 3] →
          ((exMaze8.PerformXRotate 2 1 1).grid 1 c).tileType ≠ TileType.Wall)) :=
  ⟨by decide, by decide, by decide, by decide, Or.inl rfl,
   c2_amended_collision_soundness exMaze8 2 1 1 [Position.mk 1 3]
     (by decide) (by decide) (by decide) (by decide) (Or.inl rfl)⟩

/-! NPC turn policy (claim C7). -/

/-- A direction scan that found no valid move only sets the moved flag. -/
theorem tryDirsGo_false (n : npc.NPC) (vm : Int → Int → Bool) (ds : List (Int × Int))
    (h : (npc.tryDirsGo n vm ds).2 = false) :
    (npc.tryDirsGo n vm ds).1 = { n with hasMoved := true } := by
  induction ds with
  | nil => rfl
  | cons d rest ih =>
    simp only [npc.tryDirsGo] at h ⊢
    by_cases hv : vm (n.gridX + d.1) (n.gridY + d.2) = true
    · rw [if_pos hv] at h
      simp at h
    · rw [if_neg hv] at h ⊢
      exact ih h

/-- A failed `TryMove` on an idle, unmoved NPC only sets the moved flag. -/
theorem tryMove_false (n : npc.NPC) (vm : Int → Int → Bool) (r : Rand)
    (hm : n.moving = false) (hh : n.hasMoved = false)
    (h : (n.TryMove vm r).2.1 = false) :
    (n.TryMove vm r).1 = { n with hasMoved := true } := by
  unfold npc.NPC.TryMove at h ⊢
  have hc : (n.moving || n.hasMoved) = false := by rw [hm, hh]; rfl
  rw [hc] at h ⊢
  simp only [Bool.false_eq_true, if_false] at h ⊢
  exact tryDirsGo_false n vm _ h

/-- Frame property of the `ProcessTurn` list walk: there is at most one
index whose NPC may change beyond getting its moved flag set. -/
theorem processGo_frame (vm : Int → Int → Bool) (l : List npc.NPC) (r : Rand) :
    ∃ j : Nat, ∀ i : Nat, i ≠ j →
      ((npc.processGo vm l r).1.get? i = l.get? i ∨
       (npc.processGo vm l r).1.get? i =
         (l.get? i).map (fun n => { n with hasMoved := true })) := by
  induction l generalizing r with
  | nil => exact ⟨0, fun i _ => Or.inl rfl⟩
  | cons n rest ih =>
    simp only [npc.processGo]
    by_cases hguard : (!n.hasMoved && !n.moving) = true
    · rw [if_pos hguard]
      by_cases hmoved : (n.TryMove vm r).2.1 = true
      · rw [if_pos hmoved]
        refine ⟨0, fun i hi => ?_⟩
        match i, hi with
        | k + 1, _ => exact Or.inl rfl
      · rw [if_neg hmoved]
        obtain ⟨j, hj⟩ := ih ((n.TryMove vm r).2.2)
        refine ⟨j + 1, fun i hi => ?_⟩
        match i, hi with
        | 0, _ =>
          right
          have hmF : n.moving = false := by
            rcases Bool.and_eq_true _ _ |>.mp hguard with ⟨_, h2⟩
            simpa using h2
          have hhF : n.hasMoved = false := by
            rcases Bool.and_eq_true _ _ |>.mp hguard with ⟨h1, _⟩
            simpa using h1
          have := tryMove_false n vm r hmF hhF (Bool.not_eq_true _ ▸ (by simpa using hmoved))
          simp only [List.get?, Option.map, this]
        | k + 1, hi =>
          have hk : k ≠ j := fun hkj => hi (by rw [hkj])
          exact hj k hk
    · rw [if_neg hguard]
      obtain ⟨j, hj⟩ := ih r
      refine ⟨j + 1, fun i hi => ?_⟩
      match i, hi with
      | 0, _ => exact Or.inl rfl
      | k + 1, hi =>
        have hk : k ≠ j := fun hkj => hi (by rw [hkj])
        exact hj k hk

/-- Counterexample for C7 as stated: with NPC A stuck (no valid neighbour)
and NPC B able to move, a single `ProcessTurn` call sets the moved flag of
both NPCs (and starts B moving) — it does not change the state of at most
one NPC. -/
theorem c7_counterexample :
    exNpcA.hasMoved = false ∧ exNpcB.hasMoved = false ∧
    (((npc.Manager.mk [exNpcA, exNpcB]).ProcessTurn exPred
        ⟨fun _ => 0, 0⟩).1.npcs.get? 0).map (fun n => n.hasMoved) = some true ∧
    (((npc.Manager.mk [exNpcA, exNpcB]).ProcessTurn exPred
        ⟨fun _ => 0, 0⟩).1.npcs.get? 1).map (fun n => n.hasMoved) = some true ∧
    (((npc.Manager.mk [exNpcA, exNpcB]).ProcessTurn exPred
        ⟨fun _ => 0, 0⟩).1.npcs.get? 1).map (fun n => n.moving) = some true := by
  decide

/-- C7 amended: a single `ProcessTurn` call initiates movement for at most
one NPC — there is an index `j` such that every other NPC is either left
completely unchanged or merely has its moved-this-turn flag set (which
happens to each NPC, encountered before the first mover, that had no valid
move and therefore forfeits); the original claim's "at most one NPC changes
state" fails only in that several immovable NPCs can be flagged in the same
invocation. -/
theorem c7_amended_process_turn_frame (m : npc.Manager) (vm : Int → Int → Bool)
    (r : Rand) :
    ∃ j : Nat, ∀ i : Nat, i ≠ j →
      ((m.ProcessTurn vm r).1.npcs.get? i = m.npcs.get? i ∨
       (m.ProcessTurn vm r).1.npcs.get? i =
         (m.npcs.get? i).map (fun n => { n with hasMoved := true })) := by
  unfold npc.Manager.ProcessTurn
  by_cases h1 : m.AnyMoving = true
  · rw [if_pos h1]
    exact ⟨0, fun i _ => Or.inl rfl⟩
  · rw [if_neg h1]
    by_cases h2 : m.AllMoved = true
    · rw [if_pos h2]
      exact ⟨0, fun i _ => Or.inl rfl⟩
    · rw [if_neg h2]
      exact processGo_frame vm m.npcs r

/-! Generator proof infrastructure and the generator claims. -/

/-- C4 is a code bug: `Generate`'s own comment says the local seeded source
exists "to ensure deterministic generation with the same seed", but
`ensurePathToGoal` draws from the package-global `rand`.  Concretely: two
runs at 6×6 with the identical seeded stream (constant 3) but different
global-source states produce different mazes — cell (x=1, y=4) is Wall in
one and Floor in the other. -/
theorem c4_global_rand_breaks_seed_determinism :
    (Generate 6 6 gen6SeedStream gen6GlobalA 1000).map
        (fun m => decide ((m.tile 4 1).ty = TileType.Wall)) = some true ∧
    (Generate 6 6 gen6SeedStream gen6GlobalB 1000).map
        (fun m => decide ((m.tile 4 1).ty = TileType.Wall)) = some false := by
  constructor
  · decide
  · decide

/-- C5 is a code bug: `addRandomPaths` in generator.go calls
`state.GetTile(y-1, x)` etc. with transposed arguments, so it counts the
Floor neighbours of cell (y,x) instead of the candidate (x,y).  Concretely:
on `exC5State` the candidate wall (x=1, y=2) has exactly one Floor cell
among its own four orthogonal neighbours (1,1), (1,3), (0,2), (2,2) —
fewer than 2 — yet the run converts it to Floor (because the transposed
cell (2,1) has two Floor neighbours). -/
theorem c5_transposed_neighbour_check :
    ((if goFloorHit exC5State 1 1 = true then 1 else 0) +
     (if goFloorHit exC5State 1 3 = true then 1 else 0) +
     (if goFloorHit exC5State 0 2 = true then 1 else 0) +
     (if goFloorHit exC5State 2 2 = true then 1 else 0) = 1) ∧
    (addRandomPaths exC5State ⟨c5Stream, 0⟩ 1000).map
        (fun p => decide ((p.1.tile 2 1).ty = TileType.Floor)) = some true := by
  constructor
  · decide
  · decide

/-- SetTileType changes only the targeted in-bounds cell's type. -/
theorem setTileType_tile (s : State) (x y : Int) (t : TileType) (y2 x2 : Int) :
    (s.SetTileType x y t).tile y2 x2 =
      (if (0 ≤ x ∧ x < s.width ∧ 0 ≤ y ∧ y < s.height) ∧ y2 = y ∧ x2 = x then
        { s.tile y x with ty := t }
      else s.tile y2 x2) := by
  by_cases hb : x < 0 ∨ x ≥ s.width ∨ y < 0 ∨ y ≥ s.height
  · have hid : s.SetTileType x y t = s := by
      unfold State.SetTileType
      rw [if_pos hb]
    rw [hid, if_neg]
    rintro ⟨⟨h1, h2, h3, h4⟩, _⟩
    rcases hb with h | h | h | h <;> omega
  · have hcell : (s.SetTileType x y t).tile y2 x2 =
        (if y2 = y ∧ x2 = x then { s.tile y x with ty := t } else s.tile y2 x2) := by
      unfold State.SetTileType
      rw [if_neg hb]
      split
      · rfl
      · rfl
    rw [hcell]
    by_cases hc : y2 = y ∧ x2 = x
    · rw [if_pos hc, if_pos ⟨by omega, hc⟩]
    · rw [if_neg hc, if_neg (fun hcc => hc hcc.2)]

/-- SetTileType preserves the dimensions. -/
theorem setTileType_dims (s : State) (x y : Int) (t : TileType) :
    (s.SetTileType x y t).width = s.width ∧ (s.SetTileType x y t).height = s.height := by
  unfold State.SetTileType
  split
  · exact ⟨rfl, rfl⟩
  · split <;> exact ⟨rfl, rfl⟩

/-- SetTileType with a non-Goal type preserves the cached goal. -/
theorem setTileType_goal_of_ne (s : State) (x y : Int) (t : TileType)
    (ht : t ≠ TileType.Goal) :
    (s.SetTileType x y t).goalX = s.goalX ∧ (s.SetTileType x y t).goalY = s.goalY := by
  unfold State.SetTileType
  split_ifs with h1
  · exact ⟨rfl, rfl⟩
  · exact ⟨rfl, rfl⟩

/-- setFlavorImages changes no tile type. -/
theorem setFlavorImages_ty (s : State) (y x : Int) :
    ((setFlavorImages s).tile y x).ty = (s.tile y x).ty := by
  unfold setFlavorImages
  show ((if _ then _ else _ : Tile)).ty = _
  split <;> rfl

/-- setFlavorImages preserves dimensions and goal. -/
theorem setFlavorImages_dims (s : State) :
    (setFlavorImages s).width = s.width ∧ (setFlavorImages s).height = s.height ∧
    (setFlavorImages s).goalX = s.goalX ∧ (setFlavorImages s).goalY = s.goalY :=
  ⟨rfl, rfl, rfl, rfl⟩

/-- Connectivity is monotone under pointwise non-Wall preservation (same
dimensions). -/
theorem reach_mono (s s2 : State) (hw : s2.width = s.width) (hh : s2.height = s.height)
    (hty : ∀ y x : Int, (s.tile y x).ty ≠ TileType.Wall → (s2.tile y x).ty ≠ TileType.Wall)
    {p q : Position} (h : Reach s p q) : Reach s2 p q := by
  induction h with
  | refl => exact Relation.ReflTransGen.refl
  | tail _ hstep ih =>
    refine Relation.ReflTransGen.tail ih ?_
    obtain ⟨h1, h2, h3, h4, h5, h6⟩ := hstep
    exact ⟨h1, by omega, h3, by omega, hty _ _ h5, h6⟩

/-- Setting any non-Wall tile type preserves connectivity. -/
theorem reach_setTileType (s : State) (x y : Int) (t : TileType)
    (ht : t ≠ TileType.Wall) {p q : Position} (h : Reach s p q) :
    Reach (s.SetTileType x y t) p q := by
  refine reach_mono s _ (setTileType_dims s x y t).1 (setTileType_dims s x y t).2 ?_ h
  intro y2 x2 hty
  rw [setTileType_tile]
  split
  · exact ht
  · exact hty

/-- setFlavorImages preserves connectivity. -/
theorem reach_setFlavorImages (s : State) {p q : Position} (h : Reach s p q) :
    Reach (setFlavorImages s) p q :=
  reach_mono s (setFlavorImages s) rfl rfl
    (fun y2 x2 hty => by rw [setFlavorImages_ty]; exact hty) h

/-- Every position the BFS direction fold enqueues is reachable from the
start, assuming the dequeued cell and the existing queue entries are. -/
theorem bfsFold_reach (s : State) (start current : Position)
    (hcur : Reach s start current) :
    ∀ ds : List (Int × Int),
      (∀ d ∈ ds, d = ((0 : Int), (-1 : Int)) ∨ d = (1, 0) ∨ d = (0, 1) ∨ d = (-1, 0)) →
      ∀ acc : (Int → Int → Bool) × List Position,
        (∀ p ∈ acc.2, Reach s start p) →
        ∀ p ∈ (ds.foldl (bfsStep s current) acc).2, Reach s start p := by
  intro ds
  induction ds with
  | nil =>
    intro _ acc hacc p hp
    exact hacc p hp
  | cons d rest ih =>
    intro hds acc hacc
    have hd := hds d (List.mem_cons_self _ _)
    refine ih (fun d2 hd2 => hds d2 (List.mem_cons_of_mem _ hd2))
      (bfsStep s current acc d) ?_
    intro p hp
    unfold bfsStep at hp
    by_cases hc : 0 ≤ current.x + d.1 ∧ current.x + d.1 < s.width ∧
        0 ≤ current.y + d.2 ∧ current.y + d.2 < s.height ∧
        (s.tile (current.y + d.2) (current.x + d.1)).ty ≠ TileType.Wall ∧
        acc.1 (current.y + d.2) (current.x + d.1) = false
    · rw [if_pos hc] at hp
      rcases List.mem_append.mp hp with hmem | hmem
      · exact hacc p hmem
      · have hpe : p = Position.mk (current.x + d.1) (current.y + d.2) := by
          simpa using hmem
        subst hpe
        refine Relation.ReflTransGen.tail hcur ?_
        obtain ⟨h1, h2, h3, h4, h5, _⟩ := hc
        refine ⟨h1, h2, h3, h4, h5, ?_⟩
        rcases hd with rfl | rfl | rfl | rfl
        · exact Or.inr (Or.inr (Or.inr ⟨by simp, by simp⟩))
        · exact Or.inl ⟨by simp, by simp⟩
        · exact Or.inr (Or.inr (Or.inl ⟨by simp, by simp⟩))
        · exact Or.inr (Or.inl ⟨by simp, by simp⟩)
    · rw [if_neg hc] at hp
      exact hacc p hp

/-- Soundness of `hasPath`'s BFS loop: reaching the verdict `true` means
the goal cell is connected to the start. -/
theorem bfsGo_sound (s : State) (start : Position) (gx gy : Int) :
    ∀ (fuel : Nat) (visited : Int → Int → Bool) (queue : List Position),
      (∀ p ∈ queue, Reach s start p) →
      bfsGo s gx gy fuel visited queue = some true →
      Reach s start (Position.mk gx gy) := by
  intro fuel
  induction fuel with
  | zero =>
    intro visited queue _ h
    exact absurd h (by simp [bfsGo])
  | succ n ih =>
    intro visited queue hq hrun
    cases queue with
    | nil => exact absurd hrun (by simp [bfsGo])
    | cons current rest =>
      rw [bfsGo] at hrun
      by_cases hg : current.x = gx ∧ current.y = gy
      · have hce : current = Position.mk gx gy := by
          cases current
          simp only at hg
          rw [hg.1, hg.2]
        exact hce ▸ hq current (List.mem_cons_self _ _)
      · rw [if_neg hg] at hrun
        have hcur : Reach s start current := hq current (List.mem_cons_self _ _)
        have hrest : ∀ p ∈ rest, Reach s start p := fun p hp =>
          hq p (List.mem_cons_of_mem _ hp)
        refine ih _ _ ?_ hrun
        refine bfsFold_reach s start current hcur bfsDirs ?_ (visited, rest) hrest
        intro d hd
        simp only [bfsDirs, List.mem_cons, List.not_mem_nil, or_false] at hd
        rcases hd with rfl | rfl | rfl | rfl
        · exact Or.inl rfl
        · exact Or.inr (Or.inl rfl)
        · exact Or.inr (Or.inr (Or.inl rfl))
        · exact Or.inr (Or.inr (Or.inr rfl))

/-- SetTileType at an interior cell preserves the border invariant. -/
theorem borderWall_setTileType (s : State) (x y : Int) (t : TileType)
    (hx1 : 1 ≤ x) (hx2 : x ≤ s.width - 2) (hy1 : 1 ≤ y) (hy2 : y ≤ s.height - 2)
    (hb : borderWall s) : borderWall (s.SetTileType x y t) := by
  intro x2 y2 h1 h2 h3 h4 h5
  rw [(setTileType_dims s x y t).1] at h2 h5
  rw [(setTileType_dims s x y t).2] at h4 h5
  rw [setTileType_tile, if_neg]
  · exact hb x2 y2 h1 h2 h3 h4 h5
  · rintro ⟨_, hy, hx⟩
    rcases h5 with h | h | h | h <;> omega

/-- All facts needed about one interior Floor write during path repair:
dimensions, cached goal and border invariant are preserved, connectivity is
monotone, and the written cell is Floor afterwards. -/
theorem floorSet_facts (s : State) (x y : Int)
    (hx1 : 1 ≤ x) (hx2 : x ≤ s.width - 2) (hy1 : 1 ≤ y) (hy2 : y ≤ s.height - 2) :
    (s.SetTileType x y TileType.Floor).width = s.width ∧
    (s.SetTileType x y TileType.Floor).height = s.height ∧
    (s.SetTileType x y TileType.Floor).goalX = s.goalX ∧
    (s.SetTileType x y TileType.Floor).goalY = s.goalY ∧
    (borderWall s → borderWall (s.SetTileType x y TileType.Floor)) ∧
    (∀ p q : Position, Reach s p q → Reach (s.SetTileType x y TileType.Floor) p q) ∧
    ((s.SetTileType x y TileType.Floor).tile y x).ty = TileType.Floor := by
  refine ⟨(setTileType_dims s x y _).1, (setTileType_dims s x y _).2,
    (setTileType_goal_of_ne s x y _ (by decide)).1,
    (setTileType_goal_of_ne s x y _ (by decide)).2,
    borderWall_setTileType s x y _ hx1 hx2 hy1 hy2,
    fun p q h => reach_setTileType s x y _ (by decide) h, ?_⟩
  rw [setTileType_tile, if_pos ⟨⟨by omega, by omega, by omega, by omega⟩, rfl, rfl⟩]

/-- Constructor for `stepAdj` on literal positions. -/
theorem stepAdj_mk (s : State) (cx cy nx ny : Int)
    (h1 : 0 ≤ nx) (h2 : nx < s.width) (h3 : 0 ≤ ny) (h4 : ny < s.height)
    (h5 : (s.tile ny nx).ty ≠ TileType.Wall)
    (h6 : (nx - cx = 1 ∧ ny = cy) ∨ (nx - cx = -1 ∧ ny = cy) ∨
          (nx = cx ∧ ny - cy = 1) ∨ (nx = cx ∧ ny - cy = -1)) :
    stepAdj s (Position.mk cx cy) (Position.mk nx ny) :=
  ⟨h1, h2, h3, h4, h5, h6⟩

/-- Invariant of the stairstep repair loop: it preserves dimensions, the
cached goal and the border invariant, and on success extends any connected
path ending at the current cell into one ending at the goal cell. -/
theorem ensureGo_inv (start : Position) (gx gy : Int) :
    ∀ (fuel : Nat) (cx cy : Int) (s : State) (r : Rand) (s2 : State) (r2 : Rand),
      ensureGo gx gy fuel cx cy s r = some (s2, r2) →
      1 ≤ cx → cx ≤ s.width - 2 → 1 ≤ cy → cy ≤ s.height - 2 →
      1 ≤ gx → gx ≤ s.width - 2 → 1 ≤ gy → gy ≤ s.height - 2 →
      s2.width = s.width ∧ s2.height = s.height ∧
      s2.goalX = s.goalX ∧ s2.goalY = s.goalY ∧
      (borderWall s → borderWall s2) ∧
      (Reach s start (Position.mk cx cy) → Reach s2 start (Position.mk gx gy)) := by
  intro fuel
  induction fuel with
  | zero =>
    intro cx cy s r s2 r2 hrun _ _ _ _ _ _ _ _
    rw [ensureGo] at hrun
    by_cases hdone : cx = gx ∧ cy = gy
    · rw [if_pos hdone] at hrun
      simp only [Option.some.injEq, Prod.mk.injEq] at hrun
      obtain ⟨hs, -⟩ := hrun
      subst hs
      refine ⟨rfl, rfl, rfl, rfl, id, ?_⟩
      rw [← hdone.1, ← hdone.2]
      exact id
    · rw [if_neg hdone] at hrun
      exact absurd hrun (by simp)
  | succ n ih =>
    intro cx cy s r s2 r2 hrun hcx1 hcx2 hcy1 hcy2 hgx1 hgx2 hgy1 hgy2
    rw [ensureGo] at hrun
    by_cases hdone : cx = gx ∧ cy = gy
    · rw [if_pos hdone] at hrun
      simp only [Option.some.injEq, Prod.mk.injEq] at hrun
      obtain ⟨hs, -⟩ := hrun
      subst hs
      refine ⟨rfl, rfl, rfl, rfl, id, ?_⟩
      rw [← hdone.1, ← hdone.2]
      exact id
    · rw [if_neg hdone] at hrun
      by_cases hbx : (randIntn r 2).1 = 0 ∧ cx ≠ gx
      · rw [if_pos hbx] at hrun
        have hne := hbx.2
        have hstep1 : 1 ≤ cx + (if gx < cx then (-1 : Int) else 1) := by
          split <;> omega
        have hstep2 : cx + (if gx < cx then (-1 : Int) else 1) ≤ s.width - 2 := by
          split <;> omega
        have f1 := floorSet_facts s (cx + (if gx < cx then (-1 : Int) else 1)) cy
          hstep1 hstep2 hcy1 hcy2
        obtain ⟨f1w, f1h, f1gx, f1gy, f1b, f1r, f1t⟩ := f1
        have f2 := floorSet_facts (s.SetTileType (cx + (if gx < cx then (-1 : Int) else 1))
            cy TileType.Floor) (cx + (if gx < cx then (-1 : Int) else 1)) cy
          hstep1 (by omega) hcy1 (by omega)
        obtain ⟨f2w, f2h, f2gx, f2gy, f2b, f2r, f2t⟩ := f2
        have hres := ih (cx + (if gx < cx then (-1 : Int) else 1)) cy _ _ s2 r2 hrun
          hstep1 (by omega) hcy1 (by omega) hgx1 (by omega) hgy1 (by omega)
        obtain ⟨e1, e2, e3, e4, e5, e6⟩ := hres
        refine ⟨by omega, by omega, by rw [e3, f2gx, f1gx], by rw [e4, f2gy, f1gy],
          fun hb => e5 (f2b (f1b hb)), ?_⟩
        intro hreach
        refine e6 (Relation.ReflTransGen.tail (f2r _ _ (f1r _ _ hreach))
          (stepAdj_mk _ cx cy _ cy ?_ ?_ ?_ ?_ ?_ ?_))
        · omega
        · omega
        · omega
        · omega
        · rw [f2t]
          decide
        · by_cases hlt : gx < cx
          · rw [if_pos hlt]
            exact Or.inr (Or.inl ⟨by omega, rfl⟩)
          · rw [if_neg hlt]
            exact Or.inl ⟨by omega, rfl⟩
      · rw [if_neg hbx] at hrun
        by_cases hby : cy ≠ gy
        · rw [if_pos hby] at hrun
          have hstep1 : 1 ≤ cy + (if gy < cy then (-1 : Int) else 1) := by
            split <;> omega
          have hstep2 : cy + (if gy < cy then (-1 : Int) else 1) ≤ s.height - 2 := by
            split <;> omega
          have f1 := floorSet_facts s cx (cy + (if gy < cy then (-1 : Int) else 1))
            hcx1 hcx2 hstep1 hstep2
          obtain ⟨f1w, f1h, f1gx, f1gy, f1b, f1r, f1t⟩ := f1
          have f2 := floorSet_facts (s.SetTileType cx
              (cy + (if gy < cy then (-1 : Int) else 1)) TileType.Floor) cx
            (cy + (if gy < cy then (-1 : Int) else 1))
            hcx1 (by omega) hstep1 (by omega)
          obtain ⟨f2w, f2h, f2gx, f2gy, f2b, f2r, f2t⟩ := f2
          have hres := ih cx (cy + (if gy < cy then (-1 : Int) else 1)) _ _ s2 r2 hrun
            hcx1 (by omega) hstep1 (by omega) hgx1 (by omega) hgy1 (by omega)
          obtain ⟨e1, e2, e3, e4, e5, e6⟩ := hres
          refine ⟨by omega, by omega, by rw [e3, f2gx, f1gx], by rw [e4, f2gy, f1gy],
            fun hb => e5 (f2b (f1b hb)), ?_⟩
          intro hreach
          refine e6 (Relation.ReflTransGen.tail (f2r _ _ (f1r _ _ hreach))
            (stepAdj_mk _ cx cy cx _ ?_ ?_ ?_ ?_ ?_ ?_))
          · omega
          · omega
          · omega
          · omega
          · rw [f2t]
            decide
          · by_cases hlt : gy < cy
            · rw [if_pos hlt]
              exact Or.inr (Or.inr (Or.inr ⟨rfl, by omega⟩))
            · rw [if_neg hlt]
              exact Or.inr (Or.inr (Or.inl ⟨rfl, by omega⟩))
        · rw [if_neg hby] at hrun
          have f1 := floorSet_facts s cx cy hcx1 hcx2 hcy1 hcy2
          obtain ⟨f1w, f1h, f1gx, f1gy, f1b, f1r, f1t⟩ := f1
          have hres := ih cx cy _ _ s2 r2 hrun hcx1 (by omega) hcy1 (by omega)
            hgx1 (by omega) hgy1 (by omega)
          obtain ⟨e1, e2, e3, e4, e5, e6⟩ := hres
          exact ⟨by omega, by omega, by rw [e3, f1gx], by rw [e4, f1gy],
            fun hb => e5 (f1b hb), fun h => e6 (f1r _ _ h)⟩

/-- A successful wall pick names an interior cell. -/
theorem pickWallGo_some (s : State) :
    ∀ (fuel : Nat) (r : Rand) (x y : Int) (r2 : Rand),
      pickWallGo s fuel r = some (x, y, r2) →
      0 < x ∧ x < s.width - 1 ∧ 0 < y ∧ y < s.height - 1 := by
  intro fuel
  induction fuel with
  | zero =>
    intro r x y r2 hrun
    exact absurd hrun (by simp [pickWallGo])
  | succ n ih =>
    intro r x y r2 hrun
    simp only [pickWallGo] at hrun
    split_ifs at hrun with hc
    · simp only [Option.some.injEq, Prod.mk.injEq] at hrun
      obtain ⟨hx, hy, -⟩ := hrun
      subst hx
      subst hy
      exact ⟨hc.2.1, hc.2.2.1, hc.2.2.2.1, hc.2.2.2.2⟩
    · exact ih _ x y r2 hrun

/-- The conversion attempt at an interior candidate preserves dimensions,
the cached goal and the border invariant. -/
theorem attemptConvert_inv (s : State) (x y : Int)
    (hx1 : 1 ≤ x) (hx2 : x ≤ s.width - 2) (hy1 : 1 ≤ y) (hy2 : y ≤ s.height - 2) :
    (attemptConvert s x y).width = s.width ∧
    (attemptConvert s x y).height = s.height ∧
    (attemptConvert s x y).goalX = s.goalX ∧
    (attemptConvert s x y).goalY = s.goalY ∧
    (borderWall s → borderWall (attemptConvert s x y)) := by
  unfold attemptConvert
  by_cases hc : 2 ≤ ((if goFloorHit s (y - 1) x = true then 1 else 0) +
      (if goFloorHit s (y + 1) x = true then 1 else 0) +
      (if goFloorHit s y (x - 1) = true then 1 else 0) +
      (if goFloorHit s y (x + 1) = true then 1 else 0) : Nat)
  · rw [if_pos hc]
    obtain ⟨f1, f2, f3, f4, f5, -, -⟩ := floorSet_facts s x y hx1 hx2 hy1 hy2
    exact ⟨f1, f2, f3, f4, f5⟩
  · rw [if_neg hc]
    exact ⟨rfl, rfl, rfl, rfl, id⟩

/-- The loop-injection attempt loop preserves dimensions, the cached goal
and the border invariant. -/
theorem addRandomPathsGo_inv (fuelInner : Nat) :
    ∀ (n : Nat) (s : State) (r : Rand) (s2 : State) (r2 : Rand),
      addRandomPathsGo fuelInner n s r = some (s2, r2) →
      s2.width = s.width ∧ s2.height = s.height ∧
      s2.goalX = s.goalX ∧ s2.goalY = s.goalY ∧
      (borderWall s → borderWall s2) := by
  intro n
  induction n with
  | zero =>
    intro s r s2 r2 hrun
    simp only [addRandomPathsGo, Option.some.injEq, Prod.mk.injEq] at hrun
    obtain ⟨hs, -⟩ := hrun
    subst hs
    exact ⟨rfl, rfl, rfl, rfl, id⟩
  | succ n ih =>
    intro s r s2 r2 hrun
    rw [addRandomPathsGo] at hrun
    cases hpick : pickWallGo s fuelInner r with
    | none =>
      rw [hpick] at hrun
      exact absurd hrun (by simp)
    | some t =>
      obtain ⟨x, y, r1⟩ := t
      rw [hpick] at hrun
      have hbounds := pickWallGo_some s fuelInner r x y r1 hpick
      have hconv := attemptConvert_inv s x y (by omega) (by omega) (by omega) (by omega)
      obtain ⟨c1, c2, c3, c4, c5⟩ := hconv
      have hres := ih (attemptConvert s x y) r1 s2 r2 hrun
      obtain ⟨e1, e2, e3, e4, e5⟩ := hres
      exact ⟨by rw [e1, c1], by rw [e2, c2], by rw [e3, c3], by rw [e4, c4],
        fun hb => e5 (c5 hb)⟩

/-- The drawn value of `Intn` lies in `[0, n)` for positive `n`. -/
theorem randIntn_bounds (r : Rand) (n : Int) (hn : 0 < n) :
    0 ≤ (randIntn r n).1 ∧ (randIntn r n).1 < n := by
  unfold randIntn
  dsimp only
  refine ⟨Int.ofNat_nonneg _, ?_⟩
  have hpos : 0 < n.toNat := by omega
  have hlt : (Int.ofNat (r.stream r.idx % n.toNat)) < Int.ofNat n.toNat :=
    Int.ofNat_lt.mpr (Nat.mod_lt (r.stream r.idx) hpos)
  have heq : Int.ofNat n.toNat = n := by
    rw [Int.ofNat_eq_coe]
    omega
  omega

/-- A successful goal choice names an interior cell (for sizes ≥ 6). -/
theorem chooseGoalGo_bounds (w h : Int) (hw : 6 ≤ w) (hh : 6 ≤ h) :
    ∀ (fuel : Nat) (r : Rand) (gx gy : Int) (r2 : Rand),
      chooseGoalGo w h fuel r = some (gx, gy, r2) →
      1 ≤ gx ∧ gx ≤ w - 2 ∧ 1 ≤ gy ∧ gy ≤ h - 2 := by
  intro fuel
  induction fuel with
  | zero =>
    intro r gx gy r2 hrun
    exact absurd hrun (by simp [chooseGoalGo])
  | succ n ih =>
    intro r gx gy r2 hrun
    simp only [chooseGoalGo] at hrun
    split_ifs at hrun with hc
    · simp only [Option.some.injEq, Prod.mk.injEq] at hrun
      obtain ⟨hgx, hgy, -⟩ := hrun
      obtain ⟨hv1a, hv1b⟩ := randIntn_bounds r (w / 4) (by omega)
      obtain ⟨hv2a, hv2b⟩ := randIntn_bounds (randIntn r (w / 4)).2 (h / 4) (by omega)
      generalize hA : (randIntn r (w / 4)).1 = vA at hgx hv1a hv1b
      generalize hB : (randIntn (randIntn r (w / 4)).2 (h / 4)).1 = vB at hgy hv2a hv2b
      omega
    · exact ih _ gx gy r2 hrun

/-- The carving stack loop preserves dimensions, the cached goal and the
border invariant, provided every stacked cell is interior. -/
theorem carveGo_inv (w h : Int) :
    ∀ (fuel : Nat) (stack : List Position) (visited : Int → Int → Bool)
      (s : State) (r : Rand) (s2 : State) (r2 : Rand),
      carveGo w h fuel stack visited s r = some (s2, r2) →
      s.width = w → s.height = h →
      (∀ p ∈ stack, 1 ≤ p.x ∧ p.x ≤ w - 2 ∧ 1 ≤ p.y ∧ p.y ≤ h - 2) →
      s2.width = w ∧ s2.height = h ∧ s2.goalX = s.goalX ∧ s2.goalY = s.goalY ∧
      (borderWall s → borderWall s2) := by
  intro fuel
  induction fuel with
  | zero =>
    intro stack visited s r s2 r2 hrun _ _ _
    exact absurd hrun (by simp [carveGo])
  | succ n ih =>
    intro stack visited s r s2 r2 hrun hsw hsh hstack
    cases stack with
    | nil =>
      simp only [carveGo, Option.some.injEq, Prod.mk.injEq] at hrun
      obtain ⟨hs, -⟩ := hrun
      subst hs
      exact ⟨hsw, hsh, rfl, rfl, id⟩
    | cons current rest =>
      simp only [carveGo] at hrun
      split_ifs at hrun with hnb
      · -- a neighbour exists: carve and push
        have hcur := hstack current (List.mem_cons_self _ _)
        set nei := (List.range 4).filter (fun d =>
          decide (1 ≤ current.x + (dxList.getD d 0) * 2 ∧
            current.x + (dxList.getD d 0) * 2 < w - 1 ∧
            1 ≤ current.y + (dyList.getD d 0) * 2 ∧
            current.y + (dyList.getD d 0) * 2 < h - 1 ∧
            visited (current.y + (dyList.getD d 0) * 2)
              (current.x + (dxList.getD d 0) * 2) = false)) with hnei
        have hidx : (randIntn r (Int.ofNat nei.length)).1.toNat < nei.length := by
          unfold randIntn
          simp only [Int.toNat_ofNat]
          exact Nat.mod_lt _ hnb
        have hdmem : nei.getD (randIntn r (Int.ofNat nei.length)).1.toNat 0 ∈ nei := by
          rw [List.getD_eq_getElem _ _ hidx]
          exact List.getElem_mem _
        have hfilt := List.mem_filter.mp hdmem
        have hcond := of_decide_eq_true hfilt.2
        obtain ⟨hb1, hb2, hb3, hb4, -⟩ := hcond
        have f1 := floorSet_facts s
          (current.x + (dxList.getD (nei.getD
            (randIntn r (Int.ofNat nei.length)).1.toNat 0) 0))
          (current.y + (dyList.getD (nei.getD
            (randIntn r (Int.ofNat nei.length)).1.toNat 0) 0))
          (by omega) (by omega) (by omega) (by omega)
        obtain ⟨f1w, f1h, f1gx, f1gy, f1b, -, -⟩ := f1
        have f2 := floorSet_facts (s.SetTileType
            (current.x + (dxList.getD (nei.getD
              (randIntn r (Int.ofNat nei.length)).1.toNat 0) 0))
            (current.y + (dyList.getD (nei.getD
              (randIntn r (Int.ofNat nei.length)).1.toNat 0) 0)) TileType.Floor)
          (current.x + (dxList.getD (nei.getD
            (randIntn r (Int.ofNat nei.length)).1.toNat 0) 0) * 2)
          (current.y + (dyList.getD (nei.getD
            (randIntn r (Int.ofNat nei.length)).1.toNat 0) 0) * 2)
          (by omega) (by omega) (by omega) (by omega)
        obtain ⟨f2w, f2h, f2gx, f2gy, f2b, -, -⟩ := f2
        have hres := ih _ _ _ _ s2 r2 hrun (by omega) (by omega) ?_
        · obtain ⟨e1, e2, e3, e4, e5⟩ := hres
          exact ⟨e1, e2, by rw [e3, f2gx, f1gx], by rw [e4, f2gy, f1gy],
            fun hb => e5 (f2b (f1b hb))⟩
        · intro p hp
          rcases List.mem_cons.mp hp with hpe | hpr
          · subst hpe
            refine ⟨?_, ?_, ?_, ?_⟩ <;> dsimp only <;> omega
          · exact hstack p hpr
      · -- no neighbour: pop and continue
        exact ih _ _ _ _ s2 r2 hrun hsw hsh
          (fun p hp => hstack p (List.mem_cons_of_mem _ hp))

/-- A fresh grid is all Wall, so its border certainly is. -/
theorem borderWall_NewState (w h : Int) : borderWall (NewState w h) :=
  fun _ _ _ _ _ _ _ => rfl

/-- setFlavorImages preserves the border invariant. -/
theorem borderWall_setFlavorImages (s : State) (hb : borderWall s) :
    borderWall (setFlavorImages s) := by
  intro x y h1 h2 h3 h4 h5
  rw [setFlavorImages_ty]
  exact hb x y h1 h2 h3 h4 h5

/-- Main invariant of `Generate`: on success the maze keeps the requested
dimensions, the recorded goal cell is connected to (1,1) through non-Wall
tiles, and (for sizes ≥ 7, where the forced Floor cell (5,5) is interior)
every border cell is Wall. -/
theorem generate_inv (w h : Int) (hw : 6 ≤ w) (hh : 6 ≤ h)
    (ss gs : Nat → Nat) (fuel : Nat) (m : State)
    (hgen : Generate w h ss gs fuel = some m) :
    m.width = w ∧ m.height = h ∧
    Reach m (Position.mk 1 1) (Position.mk m.goalX m.goalY) ∧
    (7 ≤ w → 7 ≤ h → borderWall m) := by
  simp only [Generate] at hgen
  split at hgen
  · exact absurd hgen (by simp)
  case h_2 s1 r1 hp1 =>
  split at hgen
  · exact absurd hgen (by simp)
  case h_2 s2 r2 hp2 =>
  split at hgen
  · exact absurd hgen (by simp)
  case h_2 gx gy r3 hp3 =>
  split at hgen
  · exact absurd hgen (by simp)
  case h_2 s4 g1 hp4 =>
  simp only [Option.some.injEq] at hgen
  subst hgen
  -- stage 1: carving
  have hstack : ∀ p ∈ [Position.mk 1 1],
      1 ≤ p.x ∧ p.x ≤ w - 2 ∧ 1 ≤ p.y ∧ p.y ≤ h - 2 := by
    intro p hp
    rw [List.mem_singleton] at hp
    subst hp
    refine ⟨?_, ?_, ?_, ?_⟩ <;> dsimp only <;> omega
  have hc1 := carveGo_inv w h fuel [Position.mk 1 1]
    (fun y x => decide (y = 1 ∧ x = 1))
    ((NewState w h).SetTileType 1 1 TileType.Floor) ⟨ss, 0⟩ s1 r1 hp1
    (setTileType_dims (NewState w h) 1 1 TileType.Floor).1
    (setTileType_dims (NewState w h) 1 1 TileType.Floor).2 hstack
  obtain ⟨h1w, h1h, -, -, h1b⟩ := hc1
  -- stage 2: loop injection
  have hc2 := addRandomPathsGo_inv fuel ((s1.width + s1.height) / 3).toNat s1 r1 s2 r2 hp2
  obtain ⟨h2w, h2h, -, -, h2b⟩ := hc2
  have hs2w : s2.width = w := by omega
  have hs2h : s2.height = h := by omega
  -- stage 3: goal choice
  have hp3b : chooseGoalGo w h fuel r2 = some (gx, gy, r3) := by
    have hp3c : chooseGoalGo s2.width s2.height fuel r2 = some (gx, gy, r3) := hp3
    rwa [hs2w, hs2h] at hp3c
  have hgb := chooseGoalGo_bounds w h hw hh fuel r2 gx gy r3 hp3b
  -- stage 4: goal-cell write and explicit goal-cache assignment
  have h3d := setTileType_dims s2 gx gy TileType.Goal
  have hs3bw : ({ s2.SetTileType gx gy TileType.Goal with
      goalX := gx, goalY := gy } : State).width = w := by
    show (s2.SetTileType gx gy TileType.Goal).width = w
    omega
  have hs3bh : ({ s2.SetTileType gx gy TileType.Goal with
      goalX := gx, goalY := gy } : State).height = h := by
    show (s2.SetTileType gx gy TileType.Goal).height = h
    omega
  have hs3bb : borderWall s2 → borderWall ({ s2.SetTileType gx gy TileType.Goal with
      goalX := gx, goalY := gy } : State) := by
    intro hb
    have hb3 := borderWall_setTileType s2 gx gy TileType.Goal
      (by omega) (by omega) (by omega) (by omega) hb
    intro x y a1 a2 a3 a4 a5
    exact hb3 x y a1 a2 a3 a4 a5
  -- stage 5: reachability repair
  have hens : s4.width = w ∧ s4.height = h ∧ s4.goalX = gx ∧ s4.goalY = gy ∧
      (borderWall ({ s2.SetTileType gx gy TileType.Goal with
        goalX := gx, goalY := gy } : State) → borderWall s4) ∧
      Reach s4 (Position.mk 1 1) (Position.mk gx gy) := by
    unfold ensurePathToGoal at hp4
    split at hp4
    · exact absurd hp4 (by simp)
    case h_2 hbfs =>
      -- BFS already found a path; no repair ran
      simp only [Option.some.injEq, Prod.mk.injEq] at hp4
      obtain ⟨hs4, -⟩ := hp4
      subst hs4
      refine ⟨hs3bw, hs3bh, rfl, rfl, id, ?_⟩
      have hq : ∀ p ∈ [Position.mk 1 1],
          Reach ({ s2.SetTileType gx gy TileType.Goal with
            goalX := gx, goalY := gy } : State) (Position.mk 1 1) p := by
        intro p hp
        rw [List.mem_singleton] at hp
        subst hp
        exact Relation.ReflTransGen.refl
      exact bfsGo_sound _ (Position.mk 1 1) gx gy fuel _ _ hq hbfs
    case h_3 hbfs =>
      -- repair loop ran
      have hinv := ensureGo_inv (Position.mk 1 1) gx gy fuel 1 1
        ({ s2.SetTileType gx gy TileType.Goal with goalX := gx, goalY := gy } : State)
        ⟨gs, 0⟩ s4 g1 hp4
        (by omega) (by rw [hs3bw]; omega) (by omega) (by rw [hs3bh]; omega)
        (by omega) (by rw [hs3bw]; omega) (by omega) (by rw [hs3bh]; omega)
      obtain ⟨e1, e2, e3, e4, e5, e6⟩ := hinv
      exact ⟨by omega, by omega, e3, e4, e5, e6 Relation.ReflTransGen.refl⟩
  obtain ⟨hs4w, hs4h, hs4gx, hs4gy, hs4b, hs4r⟩ := hens
  -- stage 6: forced Floor starts and flavor images
  have f11 := setTileType_dims s4 1 1 TileType.Floor
  have f11g := setTileType_goal_of_ne s4 1 1 TileType.Floor (by decide)
  have f33 := setTileType_dims (s4.SetTileType 1 1 TileType.Floor) 3 3 TileType.Floor
  have f33g := setTileType_goal_of_ne (s4.SetTileType 1 1 TileType.Floor) 3 3
    TileType.Floor (by decide)
  have f55 := setTileType_dims ((s4.SetTileType 1 1 TileType.Floor).SetTileType 3 3
    TileType.Floor) 5 5 TileType.Floor
  have f55g := setTileType_goal_of_ne ((s4.SetTileType 1 1 TileType.Floor).SetTileType 3 3
    TileType.Floor) 5 5 TileType.Floor (by decide)
  refine ⟨?_, ?_, ?_, ?_⟩
  · show (((s4.SetTileType 1 1 TileType.Floor).SetTileType 3 3
      TileType.Floor).SetTileType 5 5 TileType.Floor).width = w
    omega
  · show (((s4.SetTileType 1 1 TileType.Floor).SetTileType 3 3
      TileType.Floor).SetTileType 5 5 TileType.Floor).height = h
    omega
  · -- connectivity of the returned maze
    have hmgx : (setFlavorImages (((s4.SetTileType 1 1 TileType.Floor).SetTileType 3 3
        TileType.Floor).SetTileType 5 5 TileType.Floor)).goalX = gx := by
      show (((s4.SetTileType 1 1 TileType.Floor).SetTileType 3 3
        TileType.Floor).SetTileType 5 5 TileType.Floor).goalX = gx
      omega
    have hmgy : (setFlavorImages (((s4.SetTileType 1 1 TileType.Floor).SetTileType 3 3
        TileType.Floor).SetTileType 5 5 TileType.Floor)).goalY = gy := by
      show (((s4.SetTileType 1 1 TileType.Floor).SetTileType 3 3
        TileType.Floor).SetTileType 5 5 TileType.Floor).goalY = gy
      omega
    rw [hmgx, hmgy]
    exact reach_setFlavorImages _
      (reach_setTileType _ 5 5 _ (by decide)
        (reach_setTileType _ 3 3 _ (by decide)
          (reach_setTileType _ 1 1 _ (by decide) hs4r)))
  · -- border invariance for sizes ≥ 7
    intro hw7 hh7
    refine borderWall_setFlavorImages _ ?_
    refine borderWall_setTileType _ 5 5 _ (by omega) (by omega) (by omega) (by omega) ?_
    refine borderWall_setTileType _ 3 3 _ (by omega) (by omega) (by omega) (by omega) ?_
    refine borderWall_setTileType _ 1 1 _ (by omega) (by omega) (by omega) (by omega) ?_
    refine hs4b (hs3bb (h2b (h1b ?_)))
    refine borderWall_setTileType _ 1 1 _ ?_ ?_ ?_ ?_ (borderWall_NewState w h)
    · show (1 : Int) ≤ 1
      omega
    · show (1 : Int) ≤ (NewState w h).width - 2
      show (1 : Int) ≤ w - 2
      omega
    · show (1 : Int) ≤ 1
      omega
    · show (1 : Int) ≤ (NewState w h).height - 2
      show (1 : Int) ≤ h - 2
      omega

/-- The wrapped destination always lands in the interior column range
(for any direction, given at least one interior column). -/
theorem rotDest_range (w x dir : Int) (hw : 3 ≤ w) :
    1 ≤ rotDest w x dir ∧ rotDest w x dir ≤ w - 2 := by
  simp only [rotDest]
  split_ifs <;> omega

/-- Each cell after the rotation loop either kept its original value or
holds the (adjusted) snapshot of some interior source column of row `py`. -/
theorem rotFoldN_cases {A : Type} (w px py dir : Int) (adjust : A → Int → A)
    (temp : Int → A) (g : Int → Int → A) :
    ∀ (m : Nat), (m = 0 ∨ (m : Int) ≤ w - 2) → ∀ y x : Int,
      rotFoldN w px py dir adjust temp g m y x = g y x ∨
      (y = py ∧ ∃ src : Int, 1 ≤ src ∧ src ≤ w - 2 ∧
        rotDest w src dir = x ∧
        rotFoldN w px py dir adjust temp g m y x = adjust (temp src) (rotDest w src dir)) := by
  intro m
  induction m with
  | zero =>
    intro _ y x
    exact Or.inl rfl
  | succ n ih =>
    intro hm y x
    have hm2 : (n : Int) + 1 ≤ w - 2 := by
      rcases hm with hme | hme
      · exact absurd hme (by omega)
      · omega
    simp only [rotFoldN, Int.ofNat_eq_coe]
    by_cases hpx : (1 + (n : Int)) = px
    · rw [if_pos hpx]
      exact ih (Or.inr (by omega)) y x
    · rw [if_neg hpx]
      unfold writeCell
      by_cases hcell : y = py ∧ x = rotDest w (1 + (n : Int)) dir
      · rw [if_pos hcell]
        exact Or.inr ⟨hcell.1, 1 + (n : Int), by omega, by omega, hcell.2.symm, rfl⟩
      · rw [if_neg hcell]
        exact ih (Or.inr (by omega)) y x

/-- PerformXRotate (part_010) preserves the border invariant: cells outside
the rotated row are untouched, border columns of the rotated row are never
destinations, and when the rotated row is itself a border row every moved
tile comes from that same all-Wall row. -/
theorem borderWall_performXRotate (s : State) (px py dir : Int) (hb : borderWall s) :
    borderWall (s.PerformXRotate px py dir) := by
  unfold State.PerformXRotate
  split_ifs with hg
  · exact hb
  · intro x y h1 h2 h3 h4 h5
    have h2' : x < s.width := h2
    have h4' : y < s.height := h4
    have h5' : x = 0 ∨ x = s.width - 1 ∨ y = 0 ∨ y = s.height - 1 := h5
    have hty : ((rotFold s.width px py dir (fun t newX => { t with x := newX })
        (fun x2 => s.tile py x2) s.tile) y x).ty = TileType.Wall := by
      unfold rotFold
      have hsplit : (s.width - 2).toNat = 0 ∨ (((s.width - 2).toNat : Int)) ≤ s.width - 2 := by
        omega
      rcases rotFoldN_cases s.width px py dir (fun t newX => { t with x := newX })
        (fun x2 => s.tile py x2) s.tile (s.width - 2).toNat hsplit y x with hkeep | hmove
      · rw [hkeep]
        exact hb x y h1 h2' h3 h4' h5'
      · obtain ⟨hy, src, hs1, hs2, hsd, hval⟩ := hmove
        rw [hval]
        have hw3 : 3 ≤ s.width := by omega
        have hdr := rotDest_range s.width src dir hw3
        show (s.tile py src).ty = TileType.Wall
        have hyb : y = 0 ∨ y = s.height - 1 := by
          rcases h5' with h | h | h | h <;> omega
        exact hb src py (by omega) (by omega) (by omega) (by omega) (by omega)
    show ((State.ClearHighlights _).tile y x).ty = TileType.Wall
    unfold State.ClearHighlights
    show ((if _ then _ else _ : Tile)).ty = _
    split
    · exact hty
    · exact hty

/-- Border invariance survives any finite sequence of rotations. -/
theorem borderWall_applyRotations (rots : List (Int × Int × Int)) :
    ∀ s : State, borderWall s → borderWall (applyRotations s rots) := by
  induction rots with
  | nil =>
    intro s hb
    exact hb
  | cons t rest ih =>
    intro s hb
    exact ih _ (borderWall_performXRotate s t.1 t.2.1 t.2.2 hb)

/-- C3: for every width and height at least 6 and every random behaviour
(seeded stream, global stream and loop fuel), a maze returned by `Generate`
contains a connected path of non-Wall tiles, by cardinal steps, from cell
(1,1) to the recorded goal cell — the connectivity that `hasPath`'s
breadth-first search over the four cardinal neighbours verifies. -/
theorem c3_generated_maze_connected (w h : Int) (hw : 6 ≤ w) (hh : 6 ≤ h)
    (ss gs : Nat → Nat) (fuel : Nat) (m : State)
    (hgen : Generate w h ss gs fuel = some m) :
    Reach m (Position.mk 1 1) (Position.mk m.goalX m.goalY) :=
  (generate_inv w h hw hh ss gs fuel m hgen).2.2.1

/-- Witness for C3 at a concrete 6×6 generation run. -/
theorem c3_generated_maze_connected_witness :
    (6 ≤ (6 : Int)) ∧
    Generate 6 6 gen6SeedStream gen6GlobalA 1000 = some mGen6A ∧
    Reach mGen6A (Position.mk 1 1) (Position.mk mGen6A.goalX mGen6A.goalY) :=
  ⟨by decide, (Option.some_get _).symm,
   c3_generated_maze_connected 6 6 (by decide) (by decide) gen6SeedStream gen6GlobalA
     1000 mGen6A (Option.some_get _).symm⟩

/-- Counterexample for C6 as stated: a generated 6×6 maze (the run behind
`mGen6A`) whose border cell (5,5) — on both the last column and the last
row — is not Wall, because `Generate` unconditionally floors the NPC start
(5,5), which is a border cell at this size. -/
theorem c6_counterexample :
    (Generate 6 6 gen6SeedStream gen6GlobalA 1000).map
      (fun m => (m.width, m.height, decide ((m.tile 5 5).ty = TileType.Wall))) =
    some (6, 6, false) := by
  decide

/-- C6 amended: for every generated maze of width and height at least 7
(so that the forced Floor cell (5,5) is interior), every border cell is
Wall immediately after generation, and this remains true after any finite
sequence of `PerformXRotate` calls — the rotation writes only interior
columns of one row.  At size 6 the claim fails because generation floors
the border cell (5,5). -/
theorem c6_amended_border_invariance (w h : Int) (hw : 7 ≤ w) (hh : 7 ≤ h)
    (ss gs : Nat → Nat) (fuel : Nat) (m : State)
    (hgen : Generate w h ss gs fuel = some m)
    (rots : List (Int × Int × Int)) :
    borderWall (applyRotations m rots) := by
  have hinv := generate_inv w h (by omega) (by omega) ss gs fuel m hgen
  exact borderWall_applyRotations rots m (hinv.2.2.2 hw hh)

/-- Witness for the amended C6 at a concrete 7×7 generation run and one
concrete rotation. -/
theorem c6_amended_border_invariance_witness :
    (7 ≤ (7 : Int)) ∧
    Generate 7 7 gen7SeedStream gen6GlobalA 1000 = some mGen7 ∧
    borderWall (applyRotations mGen7 [(2, 3, 1)]) :=
  ⟨by decide, (Option.some_get _).symm,
   c6_amended_border_invariance 7 7 (by decide) (by decide) gen7SeedStream gen6GlobalA
     1000 mGen7 (Option.some_get _).symm [(2, 3, 1)]⟩

end Mazenasium
